import Mathlib

/-!
Verification development for the symon2 poll/decode/dispatch gateway.

The JavaScript sources are shallowly embedded:
pure functions become Lean functions; module-level mutable maps become
explicit state records threaded through the functions; JS numbers are
modelled as exact rationals (with an inductive wrapper for the
non-finite values NaN and plus/minus infinity where the code can
produce or test them); code that throws returns Option/Except.
Node Buffers are lists of bytes.
-/

namespace Symon

/-- A single octet of a Node Buffer. -/
abbrev Byte := Fin 256

/-- Build a byte from a natural number (callers stay in range; the mod
matches the fact that a Buffer cell holds exactly one octet). -/
def byte (n : Nat) : Byte := ⟨n % 256, Nat.mod_lt _ (by norm_num)⟩

/-- Global or per-point byte order of the register map. -/
inductive ByteOrder
  | BE
  | LE
deriving DecidableEq, Repr

/-- Global or per-point word order of the register map. -/
inductive WordOrder
  | ABCD
  | CDAB
deriving DecidableEq, Repr

/-- The five point types supported by wordsForType in registerMap.js. -/
inductive PType
  | u16
  | i16
  | u32
  | i32
  | float32
deriving DecidableEq, Repr

/-- A JavaScript number as produced by the decoders: an exact rational
for the finite doubles, plus the non-finite values. -/
inductive JSNum
  | num (q : ℚ)
  | posInf
  | negInf
  | nan
deriving DecidableEq, Repr

/-- Multiplication of a decoded value by a finite constant
(the v * def.scale step of decodePointsFromBlocks). -/
def jsMul (v : JSNum) (c : ℚ) : JSNum :=
  match v with
  | .num q => .num (q * c)
  | .posInf => if c > 0 then .posInf else if c < 0 then .negInf else .nan
  | .negInf => if c > 0 then .negInf else if c < 0 then .posInf else .nan
  | .nan => .nan

/-- Addition of a finite constant to a decoded value
(the v + def.offset step of decodePointsFromBlocks). -/
def jsAdd (v : JSNum) (c : ℚ) : JSNum :=
  match v with
  | .num q => .num (q + c)
  | .posInf => .posInf
  | .negInf => .negInf
  | .nan => .nan

/-- PointDef of registerMap.js: address, type and the optional
per-point settings. -/
structure PointDef where
  addr : Nat
  type : PType
  scale : Option ℚ
  offset : Option ℚ
  byte_order : Option ByteOrder
  word_order : Option WordOrder
  safe_bounds : Option (ℚ × ℚ)
  deadband : Option ℚ
  ro : Bool
deriving DecidableEq, Repr

/-- A declared holding-register block of the register map. -/
structure Block where
  name : String
  fn : Nat
  start : Nat
  len : Nat
deriving DecidableEq, Repr

/-- The validated register map: global orders, blocks and named points.
Object iteration order of map.points is modelled by the list order. -/
structure RegisterMap where
  byte_order : ByteOrder
  word_order : WordOrder
  blocks : List Block
  points : List (String × PointDef)
deriving DecidableEq, Repr

/-- Association-list lookup, first match wins (JS object / Map read). -/
def lookupKV {α β : Type} [BEq α] : List (α × β) → α → Option β
  | [], _ => none
  | (k, v) :: l, k2 => if k == k2 then some v else lookupKV l k2

/-- Association-list update (JS Map.set / object assignment): the new
binding shadows any previous binding of the key. -/
def setKV {α β : Type} (k : α) (v : β) (l : List (α × β)) : List (α × β) :=
  (k, v) :: l

/-- resolveByteOrder of registerMap.js: per-point override or map default. -/
def resolveByteOrder (m : RegisterMap) (d : PointDef) : ByteOrder :=
  d.byte_order.getD m.byte_order

/-- resolveWordOrder of registerMap.js: per-point override or map default. -/
def resolveWordOrder (m : RegisterMap) (d : PointDef) : WordOrder :=
  d.word_order.getD m.word_order

/-- wordsForType of registerMap.js. The unsupported-type throw is
unrepresentable here because PType has exactly the supported types. -/
def wordsForType : PType → Nat
  | .u16 => 1
  | .i16 => 1
  | .u32 => 2
  | .i32 => 2
  | .float32 => 2

/-- Block search of decodePointsFromBlocks: first declared block whose
register range contains the whole point, compared as in JS (signed). -/
def findBlock (blocks : List Block) (addr words : Nat) : Option Block :=
  blocks.find? (fun b =>
    decide ((b.start : ℤ) ≤ addr) &&
    decide ((addr : ℤ) + words - 1 ≤ (b.start : ℤ) + b.len - 1))

/-- Two-byte slice buf.slice(off, off+2) of a Buffer. -/
def slice2 (buf : List Byte) (off : Nat) : List Byte :=
  (buf.drop off).take 2

/-- assemble32 of registerMap.js: hi/lo word concatenation, swapped for CDAB. -/
def assemble32 (hi lo : List Byte) (wo : WordOrder) : List Byte :=
  match wo with
  | .CDAB => lo ++ hi
  | .ABCD => hi ++ lo

/-- Buffer.readUInt16BE/LE at an offset; none models the RangeError a
read past the end of the buffer throws. -/
def readU16 (buf : List Byte) (off : Nat) (bo : ByteOrder) : Option Nat :=
  match buf[off]?, buf[off + 1]? with
  | some b0, some b1 =>
    some (match bo with
      | .BE => b0.val * 256 + b1.val
      | .LE => b1.val * 256 + b0.val)
  | _, _ => none

/-- Signed reinterpretation of a 16-bit unsigned value. -/
def toInt16 (u : Nat) : ℤ :=
  if u < 32768 then (u : ℤ) else (u : ℤ) - 65536

/-- Signed reinterpretation of a 32-bit unsigned value. -/
def toInt32 (u : Nat) : ℤ :=
  if u < 2147483648 then (u : ℤ) else (u : ℤ) - 4294967296

/-- Buffer.readInt16BE/LE. -/
def readI16 (buf : List Byte) (off : Nat) (bo : ByteOrder) : Option ℤ :=
  (readU16 buf off bo).map toInt16

/-- Buffer.readUInt32BE/LE on a 4-byte buffer; none models the
RangeError thrown when the assembled buffer is shorter than 4 bytes. -/
def readU32FromBytes (b4 : List Byte) (bo : ByteOrder) : Option Nat :=
  match b4 with
  | [a, b, c, d] =>
    some (match bo with
      | .BE => ((a.val * 256 + b.val) * 256 + c.val) * 256 + d.val
      | .LE => ((d.val * 256 + c.val) * 256 + b.val) * 256 + a.val)
  | _ => none

/-- Value of an IEEE-754 binary32 bit pattern, as Buffer.readFloatBE
reads it from a big-endian 4-byte buffer. -/
def f32ValOfBits (w : Nat) : JSNum :=
  let s : Nat := w / 2 ^ 31 % 2
  let e : Nat := w / 2 ^ 23 % 256
  let m : Nat := w % 2 ^ 23
  if e = 255 then
    if m = 0 then (if s = 1 then .negInf else .posInf) else .nan
  else
    let mag : ℚ :=
      if e = 0 then (m : ℚ) / 2 ^ 23 * (2 : ℚ) ^ (-126 : ℤ)
      else (1 + (m : ℚ) / 2 ^ 23) * (2 : ℚ) ^ ((e : ℤ) - 127)
    .num (if s = 1 then -mag else mag)

/-- Buffer.readFloatBE/LE on a 4-byte buffer. -/
def readF32FromBytes (b4 : List Byte) (bo : ByteOrder) : Option JSNum :=
  (readU32FromBytes b4 bo).map f32ValOfBits

/-- Decode one declared point from the block buffers, following
decodePointsFromBlocks of registerMap.js; none is the undefined the
JS code emits when the block or buffer is missing or the read throws. -/
def decodePoint (m : RegisterMap) (buffers : List (String × List Byte))
    (d : PointDef) : Option JSNum :=
  let words := wordsForType d.type
  match findBlock m.blocks d.addr words with
  | none => none
  | some blk =>
    match lookupKV buffers blk.name with
    | none => none
    | some buf =>
      let bo := resolveByteOrder m d
      let wo := resolveWordOrder m d
      let byteIndex := (d.addr - blk.start) * 2
      let raw : Option JSNum :=
        match d.type with
        | .u16 => (readU16 buf byteIndex bo).map (fun u => .num u)
        | .i16 => (readI16 buf byteIndex bo).map (fun i => .num i)
        | .u32 =>
          let hi := slice2 buf byteIndex
          let lo := slice2 buf (byteIndex + 2)
          (readU32FromBytes (assemble32 hi lo wo) bo).map (fun u => .num u)
        | .i32 =>
          let hi := slice2 buf byteIndex
          let lo := slice2 buf (byteIndex + 2)
          (readU32FromBytes (assemble32 hi lo wo) bo).map (fun u => .num (toInt32 u))
        | .float32 =>
          let hi := slice2 buf byteIndex
          let lo := slice2 buf (byteIndex + 2)
          readF32FromBytes (assemble32 hi lo wo) bo
      raw.map (fun v =>
        let v1 := match d.scale with
          | some sc => jsMul v sc
          | none => v
        match d.offset with
        | some off => jsAdd v1 off
        | none => v1)

/-- decodePointsFromBlocks of registerMap.js: every declared point is
decoded independently; a failed point maps to none (undefined). -/
def decodePointsFromBlocks (m : RegisterMap)
    (buffers : List (String × List Byte)) : List (String × Option JSNum) :=
  m.points.map (fun p => (p.1, decodePoint m buffers p.2))

/-! Encoding side of the register map: planWrite and the byte-level
write helpers of the Node Buffer API. -/

/-- Round a rational to the nearest integer, ties to even. -/
def roundHalfEven (q : ℚ) : ℤ :=
  if q - ⌊q⌋ < 1 / 2 then ⌊q⌋
  else if 1 / 2 < q - ⌊q⌋ then ⌊q⌋ + 1
  else if ⌊q⌋ % 2 = 0 then ⌊q⌋ else ⌊q⌋ + 1

/-- Bit pattern Buffer.writeFloatBE stores for a finite double: the
IEEE-754 binary32 round-to-nearest-even encoding of the value. -/
def f32Bits (v : ℚ) : ℕ :=
  if v = 0 then 0
  else
    let s : ℕ := if v < 0 then 1 else 0
    let a : ℚ := |v|
    let e0 : ℤ := max (Int.log 2 a) (-126)
    let m : ℤ := roundHalfEven (a * (2 : ℚ) ^ ((23 : ℤ) - e0))
    let e1 : ℤ := if m = 2 ^ 24 then e0 + 1 else e0
    let m1 : ℤ := if m = 2 ^ 24 then 2 ^ 23 else m
    if 127 < e1 then s * 2 ^ 31 + 255 * 2 ^ 23
    else if m1 < 2 ^ 23 then s * 2 ^ 31 + m1.toNat
    else s * 2 ^ 31 + (e1 + 127).toNat * 2 ^ 23 + (m1 - 2 ^ 23).toNat

/-- Big-endian byte quadruple of a 32-bit value (Buffer.writeUInt32BE). -/
def bytes32BE (u : ℕ) : List Byte :=
  [byte (u / 2 ^ 24), byte (u / 2 ^ 16), byte (u / 2 ^ 8), byte u]

/-- Byte quadruple of a 32-bit value in the requested byte order. -/
def bytes32 (u : ℕ) (bo : ByteOrder) : List Byte :=
  match bo with
  | .BE => bytes32BE u
  | .LE => (bytes32BE u).reverse

/-- Byte pair of a 16-bit value in the requested byte order
(Buffer.writeUInt16BE/LE). -/
def bytes16 (u : ℕ) (bo : ByteOrder) : List Byte :=
  match bo with
  | .BE => [byte (u / 256), byte u]
  | .LE => [byte u, byte (u / 256)]

/-- splitWords of registerMap.js: the two 16-bit words of a 4-byte
buffer, low word first when the word order is CDAB. -/
def splitWords (b4 : List Byte) (wo : WordOrder) : List (List Byte) :=
  let hi := b4.take 2
  let lo := (b4.drop 2).take 2
  match wo with
  | .CDAB => [lo, hi]
  | .ABCD => [hi, lo]

/-- Buffer.writeUInt16BE/LE of the JS value: the value must be an
integer in range, otherwise Node throws ERR_OUT_OF_RANGE. -/
def encodeU16 (v : ℚ) (bo : ByteOrder) : Except String (List Byte) :=
  if v.den = 1 ∧ 0 ≤ v.num ∧ v.num ≤ 65535 then .ok (bytes16 v.num.toNat bo)
  else .error "value out of range"

/-- Buffer.writeInt16BE/LE (two's complement), with the Node range check. -/
def encodeI16 (v : ℚ) (bo : ByteOrder) : Except String (List Byte) :=
  if v.den = 1 ∧ -32768 ≤ v.num ∧ v.num ≤ 32767 then
    .ok (bytes16 (v.num % 65536).toNat bo)
  else .error "value out of range"

/-- Buffer.writeUInt32BE/LE range check, returning the stored 32-bit value. -/
def encodeU32 (v : ℚ) : Except String ℕ :=
  if v.den = 1 ∧ 0 ≤ v.num ∧ v.num ≤ 4294967295 then .ok v.num.toNat
  else .error "value out of range"

/-- Buffer.writeInt32BE/LE (two's complement), with the Node range check. -/
def encodeI32 (v : ℚ) : Except String ℕ :=
  if v.den = 1 ∧ -2147483648 ≤ v.num ∧ v.num ≤ 2147483647 then
    .ok (v.num % 4294967296).toNat
  else .error "value out of range"

/-- Result of planWrite: function code, start register, register count,
the registers as 16-bit words (byte pairs), the value applied and the
reason tag. -/
structure WritePlan where
  fc : ℕ
  start : ℕ
  quantity : ℕ
  words : List (List Byte)
  value : ℚ
  reason : String
deriving DecidableEq, Repr

/-- planWrite of registerMap.js. The JS Number coercion and its NaN
guard run before this model, so rawValue is the already-coerced finite
number; lastSet models the _lastSet value the source keeps on the
point definition (the plan's value field becomes the new one). -/
def planWrite (m : RegisterMap) (pointName : String) (rawValue : ℚ)
    (allowClamp : Bool) (lastSet : Option ℚ) : Except String WritePlan :=
  match lookupKV m.points pointName with
  | none => .error ("Unknown point: " ++ pointName)
  | some d =>
    if d.ro then .error ("Point " ++ pointName ++ " is read-only")
    else
      let bounded : Except String (ℚ × String) :=
        match d.safe_bounds with
        | some (lo, hi) =>
          if rawValue < lo ∨ hi < rawValue then
            if allowClamp then .ok (min hi (max lo rawValue), "clamped")
            else .error "Out of bounds"
          else .ok (rawValue, "ok")
        | none => .ok (rawValue, "ok")
      match bounded with
      | .error e => .error e
      | .ok (v, reason0) =>
        let reason : String :=
          match d.deadband, lastSet with
          | some db, some last => if |v - last| < db then "deadband_skip" else reason0
          | _, _ => reason0
        let bo := resolveByteOrder m d
        let wo := resolveWordOrder m d
        match d.type with
        | .u16 => (encodeU16 v bo).map (fun b => ⟨6, d.addr, 1, [b], v, reason⟩)
        | .i16 => (encodeI16 v bo).map (fun b => ⟨6, d.addr, 1, [b], v, reason⟩)
        | .u32 =>
          (encodeU32 v).map (fun u => ⟨16, d.addr, 2, splitWords (bytes32 u bo) wo, v, reason⟩)
        | .i32 =>
          (encodeI32 v).map (fun u => ⟨16, d.addr, 2, splitWords (bytes32 u bo) wo, v, reason⟩)
        | .float32 =>
          .ok ⟨16, d.addr, 2, splitWords (bytes32 (f32Bits v) bo) wo, v, reason⟩

/-- Single-point register map used to read back a write plan: one block
that exactly covers the point, global orders as given. -/
def writeReadbackMap (bo : ByteOrder) (wo : WordOrder) (pointName : String)
    (d : PointDef) : RegisterMap :=
  ⟨bo, wo, [⟨"W", 3, d.addr, wordsForType d.type⟩], [(pointName, d)]⟩

/-- In-bounds writable values per point type: integral and in range for
the integer types, an exactly representable finite single-precision
value for float32. -/
def inBoundsVal : PType → ℚ → Prop
  | .u16, v => v.den = 1 ∧ 0 ≤ v.num ∧ v.num ≤ 65535
  | .i16, v => v.den = 1 ∧ -32768 ≤ v.num ∧ v.num ≤ 32767
  | .u32, v => v.den = 1 ∧ 0 ≤ v.num ∧ v.num ≤ 4294967295
  | .i32, v => v.den = 1 ∧ -2147483648 ≤ v.num ∧ v.num ≤ 2147483647
  | .float32, v => ∃ w, w < 2 ^ 32 ∧ w / 2 ^ 23 % 256 ≠ 255 ∧ f32ValOfBits w = .num v

/-- A value inside the declared safe bounds of a point, when any. -/
def withinSafeBounds (d : PointDef) (v : ℚ) : Prop :=
  match d.safe_bounds with
  | some (lo, hi) => lo ≤ v ∧ v ≤ hi
  | none => True

/-! Alarm engine of backend/src/alarmService.js. -/

/-- Per-tank connectivity record of the alarm service. -/
structure ConnState where
  lastOk : Option ℕ
  firstFail : Option ℕ
  consecutiveFails : ℕ
deriving DecidableEq, Repr

/-- Connectivity update at the top of processTelemetryForAlarms. -/
def updateConn (c : ConnState) (qcStatus : String) (now : ℕ) : ConnState :=
  if qcStatus = "ok" then ⟨some now, none, 0⟩
  else if qcStatus = "fail" then
    ⟨c.lastOk, some (c.firstFail.getD now), c.consecutiveFails + 1⟩
  else c

/-- Offline duration used by the qc_fail rule: now minus the last
successful poll, else now minus the first failure, else zero. -/
def qcOfflineMs (c : ConnState) (now : ℕ) : ℕ :=
  match c.lastOk with
  | some t => now - t
  | none =>
    match c.firstFail with
    | some t => now - t
    | none => 0

/-- Activity of the qc_fail rule for one frame: a fail frame whose
offline duration reached the connectivity threshold. -/
def qcFailActive (qcStatus : String) (c : ConnState) (now thresholdMs : ℕ) : Bool :=
  if qcStatus = "fail" then decide (thresholdMs ≤ qcOfflineMs c now) else false

/-- Alarm state per (rule, tank): the active flag and its last edge. -/
structure AlarmEntry where
  active : Bool
  lastChange : ℕ
deriving DecidableEq, Repr

/-- An ALARM or RESOLVED edge event of the pending batch. -/
structure AlarmEvent where
  kind : String
  ruleId : String
  tankId : String
  family : String
  ts : ℕ
deriving DecidableEq, Repr

/-- The persisted alarm configuration (thresholds plus the qc master
toggle). -/
structure AlarmConfig where
  phLow : ℚ
  phHigh : ℚ
  tempLow : ℚ
  tempHigh : ℚ
  qcAlarmsEnabled : Bool
deriving DecidableEq, Repr

/-- One alarm rule record. -/
structure Rule where
  id : String
  family : Option String
  rtype : String
  metric : Option String
  low : Option ℚ
  high : Option ℚ
deriving DecidableEq, Repr

/-- ALARM_RULES with the thresholds applied from the current config
(applyConfigToRules keeps them in sync). -/
def alarmRules (cfg : AlarmConfig) : List Rule :=
  [⟨"ctrl_ph_out_of_range", some "ctrl", "metric_threshold", some "ph",
      some cfg.phLow, some cfg.phHigh⟩,
   ⟨"ctrl_temp_out_of_range", some "ctrl", "metric_threshold", some "temp1_C",
      some cfg.tempLow, some cfg.tempHigh⟩,
   ⟨"qc_fail", none, "qc_fail", none, none, none⟩]

/-- The module-level mutable state of the alarm service. The map key
ruleId|tankId of alarmState is modelled as a pair; rule ids contain no
separator, so the keying is the same. -/
structure AlarmServiceState where
  connectivity : List (String × ConnState)
  alarmState : List ((String × String) × AlarmEntry)
  pendingEvents : List AlarmEvent
deriving DecidableEq, Repr

/-- Quality flag of a frame. -/
structure QC where
  status : String
  error : Option String
deriving DecidableEq, Repr

/-- Telemetry frame as the alarm service reads it. -/
structure Payload where
  tank_id : String
  s : List (String × JSNum)
  qc : QC
deriving DecidableEq, Repr

/-- updateRuleState of alarmService.js: record and report only edges. -/
def updateRuleState (st : List ((String × String) × AlarmEntry))
    (ruleId tankId : String) (active : Bool) (now : ℕ) :
    List ((String × String) × AlarmEntry) × Option (Bool × ℕ) :=
  let prev := (lookupKV st (ruleId, tankId)).getD ⟨false, 0⟩
  if active = prev.active then (st, none)
  else (setKV (ruleId, tankId) ⟨active, now⟩ st, some (active, now))

/-- Push the edge event of updateRuleState onto the pending batch. -/
def applyEdge (st : AlarmServiceState) (ruleId tankId family : String)
    (active : Bool) (now : ℕ) : AlarmServiceState :=
  match updateRuleState st.alarmState ruleId tankId active now with
  | (st2, none) => { st with alarmState := st2 }
  | (st2, some (act, ts)) =>
    { st with
      alarmState := st2
      pendingEvents := st.pendingEvents ++
        [⟨if act then "ALARM" else "RESOLVED", ruleId, tankId, family, ts⟩] }

/-- One iteration of the rule loop of processTelemetryForAlarms. -/
def processRule (cfg : AlarmConfig) (thresholdMs : ℕ) (payload : Payload)
    (family : String) (qcStatus : String) (conn : ConnState) (now : ℕ)
    (st : AlarmServiceState) (rule : Rule) : AlarmServiceState :=
  if (match rule.family with | some f => f != family | none => false) then st
  else if rule.rtype = "metric_threshold" then
    match rule.metric.bind (lookupKV payload.s) with
    | some (.num value) =>
      let tooLow := match rule.low with | some lo => decide (value < lo) | none => false
      let tooHigh := match rule.high with | some hi => decide (hi < value) | none => false
      applyEdge st rule.id payload.tank_id family (tooLow || tooHigh) now
    | _ => st
  else if rule.rtype = "qc_fail" then
    if cfg.qcAlarmsEnabled = false then st
    else applyEdge st rule.id payload.tank_id family
      (qcFailActive qcStatus conn now thresholdMs) now
  else applyEdge st rule.id payload.tank_id family false now

/-- processTelemetryForAlarms of alarmService.js as a state
transformer; the webhook URL, the persisted config and the
connectivity threshold are the module-level environment. -/
def processTelemetryForAlarms (webhookUrl : String) (cfg : AlarmConfig)
    (thresholdMs : ℕ) (payload : Payload) (family : String) (now : ℕ)
    (st : AlarmServiceState) : AlarmServiceState :=
  if webhookUrl = "" then st
  else if payload.tank_id = "" then st
  else
    let qcStatus := if payload.qc.status = "" then "ok" else payload.qc.status
    let conn := updateConn
      ((lookupKV st.connectivity payload.tank_id).getD ⟨none, none, 0⟩) qcStatus now
    let st1 : AlarmServiceState :=
      { st with connectivity := setKV payload.tank_id conn st.connectivity }
    (alarmRules cfg).foldl (processRule cfg thresholdMs payload family qcStatus conn now) st1

/-- getAlarmThresholds: a defensive clone of the current config. -/
def getAlarmThresholds (cfg : AlarmConfig) : AlarmConfig :=
  ⟨cfg.phLow, cfg.phHigh, cfg.tempLow, cfg.tempHigh, cfg.qcAlarmsEnabled⟩

/-- Default connectivity threshold: CONNECTIVITY_ALARM_MINUTES (60)
times 60000 ms. -/
def CONNECTIVITY_ALARM_MS_default : ℕ := 60 * 60000

/-! Logging service. Two variants of loggingService.js exist in the
repository; the per-family one is modelled with an A suffix, the
per-tank one (the variant the rate-limit and whitelist claims cite,
with MIN_INTERVAL_MS = 30 s) with plain names. -/

/-- Default MIN_INTERVAL_MS of the per-tank logging variant (30 s). -/
def MIN_INTERVAL_MS_default : ℤ := 30000

/-- Default LOG_MIN_INTERVAL_MS of the per-family logging variant (5 min). -/
def LOG_MIN_INTERVAL_MS_default : ℤ := 300000

/-- One JSON value of a log row. -/
inductive JVal
  | jstr (s : String)
  | jnum (v : JSNum)
deriving DecidableEq, Repr

/-- Math.trunc: round toward zero. -/
def jsTrunc (q : ℚ) : ℚ := if 0 ≤ q then (⌊q⌋ : ℚ) else (⌈q⌉ : ℚ)

/-- Math.round: nearest integer, ties toward positive infinity. -/
def jsRound (q : ℚ) : ℤ := ⌊q + 1 / 2⌋

/-- HST timestamp the logger stamps on a row; the ISO rendering is
abstracted to the shifted epoch milliseconds with the fixed offset tag. -/
def nowHawaiiISO (tMs : ℤ) : String := toString (tMs - 36000000) ++ "-10:00"

/-- Day key of a per-day log file at the fixed UTC-10 offset. -/
def todayStrHawaii (tMs : ℤ) : String := toString ((tMs - 36000000) / 86400000)

/-- Day key of a per-day log file in UTC (per-family variant). -/
def todayStrUTC (tMs : ℤ) : String := toString (tMs / 86400000)

/-- UTC ISO rendering, abstracted to the epoch milliseconds. -/
def isoUTC (tMs : ℤ) : String := toString tMs ++ "Z"

/-- truncateValue of the per-family logging variant: counters are
truncated to integers, every other finite number is rounded to one
decimal place. -/
def truncateValueA (key : String) (v : JSNum) : JSNum :=
  match v with
  | .num q =>
    if key = "counter_value" ∨ key = "timer_seconds" then .num (jsTrunc q)
    else .num ((jsRound (q * 10) : ℚ) / 10)
  | x => x

/-- truncateValue of the per-tank logging variant: every finite number
is rounded to one decimal place, with no counter exception. -/
def truncateValueB (_key : String) (v : JSNum) : JSNum :=
  match v with
  | .num q => .num ((jsRound (q * 10) : ℚ) / 10)
  | x => x

/-- filteredSubset with the per-family truncation. -/
def filteredSubsetA (s : List (String × JSNum)) (allow : List String) :
    List (String × JVal) :=
  (s.filter (fun kv => allow.contains kv.1)).map
    (fun kv => (kv.1, .jnum (truncateValueA kv.1 kv.2)))

/-- filteredSubset with the per-tank truncation. -/
def filteredSubsetB (s : List (String × JSNum)) (allow : List String) :
    List (String × JVal) :=
  (s.filter (fun kv => allow.contains kv.1)).map
    (fun kv => (kv.1, .jnum (truncateValueB kv.1 kv.2)))

/-- Outcome of reading and parsing a whitelist file for a family: none
when the read throws (both candidate files missing), some none when
the JSON is invalid, some (some points) when a points list is parsed. -/
abbrev WhitelistFile := Option (Option (List String))

/-- loadWhitelistForFamily of the per-tank logging variant: a cache
hit wins; a read or parse failure caches and returns the empty
whitelist. -/
def loadWhitelistForFamily (fsRead : String → WhitelistFile)
    (cache : List (String × List String)) (family : String) :
    List String × List (String × List String) :=
  match lookupKV cache family with
  | some s => (s, cache)
  | none =>
    match fsRead family with
    | none => ([], setKV family [] cache)
    | some none => ([], setKV family [] cache)
    | some (some pts) => (pts, setKV family pts cache)

/-- The module-level mutable state of the logging service. Queued
write lines are kept as the stream key plus the row as an ordered
field list (JSON.stringify preserves insertion order). -/
structure LogState where
  lastWrite : List (String × ℤ)
  whitelistCache : List (String × List String)
  queue : List (String × List (String × JVal))
deriving DecidableEq, Repr

/-- Telemetry payload as the logger reads it; timestamps are epoch
milliseconds. -/
structure LogPayload where
  ts_utc : Option ℤ
  family : Option String
  site_id : Option String
  tank_id : Option String
  device_id : Option String
  qcStatus : Option String
  s : List (String × JSNum)
deriving DecidableEq, Repr

/-- Family resolution of the per-tank logTelemetry: the override, else
the payload's family, else unknown. -/
def famOf (payload : LogPayload) (familyOverride : Option String) : String :=
  familyOverride.getD (payload.family.getD "unknown")

/-- Rate key of the per-tank logTelemetry. -/
def rateKeyOf (payload : LogPayload) (familyOverride : Option String) : String :=
  famOf payload familyOverride ++ ":" ++
    (payload.site_id.getD "unknown") ++ ":" ++ (payload.tank_id.getD "unknown")

/-- Stream key of the per-tank daily file of logTelemetry. -/
def streamKeyOf (payload : LogPayload) (familyOverride : Option String)
    (nowMs : ℤ) : String :=
  famOf payload familyOverride ++ ":" ++ (payload.site_id.getD "unknown") ++ ":" ++
    (payload.tank_id.getD "unknown") ++ ":" ++
    todayStrHawaii (payload.ts_utc.getD nowMs)

/-- logTelemetry of the per-tank logging variant: rate limit per
family:site:tank, per-tank daily stream, whitelist filter, row of
ts_hst, tank_id and the filtered points. -/
def logTelemetry (minIntervalMs : ℤ) (fsRead : String → WhitelistFile)
    (payload : LogPayload) (familyOverride : Option String) (nowMs : ℤ)
    (st : LogState) : LogState :=
  let fam := famOf payload familyOverride
  let tank := payload.tank_id.getD "unknown"
  let rateKey := rateKeyOf payload familyOverride
  let last := (lookupKV st.lastWrite rateKey).getD 0
  if nowMs - last < minIntervalMs then st
  else
    let tRow := payload.ts_utc.getD nowMs
    let streamKey := streamKeyOf payload familyOverride nowMs
    let loaded := loadWhitelistForFamily fsRead st.whitelistCache fam
    let row : List (String × JVal) :=
      ("ts_hst", .jstr (nowHawaiiISO tRow)) :: ("tank_id", .jstr tank) ::
        filteredSubsetB payload.s loaded.1
    { lastWrite := setKV rateKey nowMs st.lastWrite
      whitelistCache := loaded.2
      queue := st.queue ++ [(streamKey, row)] }

/-- familyFromDeviceId of the per-family logging variant: the part of
the device id before the first dash, lowercased; ctrl when there is no
dash or the dash is first. -/
def familyFromDeviceId (deviceId : String) : String :=
  match deviceId.splitOn "-" with
  | first :: _ :: _ => if first = "" then "ctrl" else first.toLower
  | _ => "ctrl"

/-- logTelemetry of the per-family logging variant: rate limit per
family:site:tank, per-family daily stream, row of ts_utc, site_id,
tank_id, device_id, qc and the filtered points. -/
def logTelemetryA (minIntervalMs : ℤ) (fsRead : String → WhitelistFile)
    (siteDefault : String) (payload : LogPayload) (nowMs : ℤ)
    (st : LogState) : LogState :=
  let site := payload.site_id.getD siteDefault
  let fam := familyFromDeviceId (payload.device_id.getD "")
  let tank := payload.tank_id.getD "unknown"
  let rateKey := fam ++ ":" ++ site ++ ":" ++ tank
  let last := (lookupKV st.lastWrite rateKey).getD 0
  if nowMs - last < minIntervalMs then st
  else
    let tRow := payload.ts_utc.getD nowMs
    let streamKey := fam ++ ":" ++ site ++ ":" ++ todayStrUTC tRow
    let loaded := loadWhitelistForFamily fsRead st.whitelistCache fam
    let devField : List (String × JVal) :=
      match payload.device_id with
      | some dev => [("device_id", .jstr dev)]
      | none => []
    let row : List (String × JVal) :=
      ("ts_utc", .jstr (isoUTC tRow)) :: ("site_id", .jstr site) ::
        ("tank_id", .jstr tank) :: devField ++
        ("qc", .jstr ((payload.qcStatus.getD "ok"))) ::
        filteredSubsetA payload.s loaded.1
    { lastWrite := setKV rateKey nowMs st.lastWrite
      whitelistCache := loaded.2
      queue := st.queue ++ [(streamKey, row)] }

/-- Run a sequence of per-tank logger calls (payload, family override,
wall time). -/
def runLog (minIntervalMs : ℤ) (fsRead : String → WhitelistFile)
    (calls : List (LogPayload × Option String × ℤ)) (st : LogState) : LogState :=
  calls.foldl (fun s c => logTelemetry minIntervalMs fsRead c.1 c.2.1 c.2.2 s) st

/-- Wall times of the calls that actually appended a row under the
given rate key, in call order. -/
def acceptedTimesForKey (minIntervalMs : ℤ) (fsRead : String → WhitelistFile)
    (key : String) : List (LogPayload × Option String × ℤ) → LogState → List ℤ
  | [], _ => []
  | c :: cs, st =>
    let st2 := logTelemetry minIntervalMs fsRead c.1 c.2.1 c.2.2 st
    if rateKeyOf c.1 c.2.1 = key ∧ st.queue.length < st2.queue.length then
      c.2.2 :: acceptedTimesForKey minIntervalMs fsRead key cs st2
    else acceptedTimesForKey minIntervalMs fsRead key cs st2

/-! Poller core of server.js: live cache, pollDevice (both source
variants) and the tick cadence. -/

/-- One live cache entry: family, ip, frame timestamp, qc flag and the
latest decoded values. -/
structure LiveEntry where
  family : String
  ip : String
  ts_utc : Option String
  qc : String
  values : List (String × Option JSNum)
deriving DecidableEq, Repr

/-- Telemetry frame as the poller builds it. -/
structure TFrame where
  ts_utc : String
  site_id : String
  tank_id : String
  device_id : String
  s : List (String × Option JSNum)
  qc : QC
deriving DecidableEq, Repr

/-- A polled device. -/
structure Device where
  tankId : String
  ip : String
  unitId : ℕ
deriving DecidableEq, Repr

/-- A family with its bound register map context. -/
structure FamilyCtx where
  family : String
  mapCtx : RegisterMap
deriving DecidableEq, Repr

/-- Observable effects of one device poll: the live cache and the
frames handed to the publisher, the log writer and the alarm engine. -/
structure GatewayState where
  liveCache : List (String × LiveEntry)
  published : List TFrame
  logged : List TFrame
  alarmFed : List (TFrame × String)
deriving DecidableEq, Repr

/-- updateLiveCache of server.js. -/
def updateLiveCache (tankId family ip : String) (frame : TFrame)
    (cache : List (String × LiveEntry)) : List (String × LiveEntry) :=
  setKV tankId
    ⟨family, ip, some frame.ts_utc,
      if frame.qc.status = "" then "ok" else frame.qc.status, frame.s⟩ cache

/-- Successful frame of pollDevice. -/
def okFrame (siteId now tank devId : String)
    (values : List (String × Option JSNum)) : TFrame :=
  ⟨now, siteId, tank, devId, values, ⟨"ok", none⟩⟩

/-- Failure frame of pollDevice: empty s, qc fail with the error text. -/
def failFrame (siteId now tank devId err : String) : TFrame :=
  ⟨now, siteId, tank, devId, [], ⟨"fail", some err⟩⟩

/-- pollDevice of the unnamed server variant: the failure path still
updates the live cache before publishing and alarm processing (no log
call exists in this variant). -/
def pollDeviceU (siteId : String) (fam : FamilyCtx) (dev : Device) (now : String)
    (readResult : Except String (List (String × List Byte)))
    (st : GatewayState) : GatewayState :=
  let devId := fam.family ++ "-" ++ dev.tankId
  match readResult with
  | .ok bufs =>
    let values := decodePointsFromBlocks fam.mapCtx bufs
    let payload := okFrame siteId now dev.tankId devId values
    { st with
      liveCache := updateLiveCache dev.tankId fam.family dev.ip payload st.liveCache,
      published := st.published ++ [payload],
      alarmFed := st.alarmFed ++ [(payload, fam.family)] }
  | .error e =>
    let failPayload := failFrame siteId now dev.tankId devId e
    { st with
      liveCache := updateLiveCache dev.tankId fam.family dev.ip failPayload st.liveCache,
      published := st.published ++ [failPayload],
      alarmFed := st.alarmFed ++ [(failPayload, fam.family)] }

/-- pollDevice of backend/src/server.js: the success path also logs
telemetry; the failure path publishes and feeds alarms but leaves the
live cache untouched. -/
def pollDeviceS (siteId : String) (fam : FamilyCtx) (dev : Device) (now : String)
    (readResult : Except String (List (String × List Byte)))
    (st : GatewayState) : GatewayState :=
  let devId := fam.family ++ "-" ++ dev.tankId
  match readResult with
  | .ok bufs =>
    let values := decodePointsFromBlocks fam.mapCtx bufs
    let payload := okFrame siteId now dev.tankId devId values
    { st with
      liveCache := updateLiveCache dev.tankId fam.family dev.ip payload st.liveCache,
      published := st.published ++ [payload],
      logged := st.logged ++ [payload],
      alarmFed := st.alarmFed ++ [(payload, fam.family)] }
  | .error e =>
    let failPayload := failFrame siteId now dev.tankId devId e
    { st with
      published := st.published ++ [failPayload],
      alarmFed := st.alarmFed ++ [(failPayload, fam.family)] }

/-- Start time of the k-th tick under the cadence of start():
an immediate tick at zero, then setInterval fires every POLL_MS and
invokes tick without consulting any in-flight guard. -/
def tickStartTime (pollMs k : ℕ) : ℕ := k * pollMs

/-- The k-th tick is executing at time t when its run lasts dur k. -/
def tickRunningAt (pollMs : ℕ) (dur : ℕ → ℕ) (k t : ℕ) : Prop :=
  tickStartTime pollMs k ≤ t ∧ t < tickStartTime pollMs k + dur k

/-- Two distinct ticks are simultaneously in flight at some time. -/
def ticksOverlap (pollMs : ℕ) (dur : ℕ → ℕ) : Prop :=
  ∃ j k t, j ≠ k ∧ tickRunningAt pollMs dur j t ∧ tickRunningAt pollMs dur k t

/-! Concrete fixtures used by the scenario and counterexample theorems. -/

/-- Register map of scenario S1: point ph as u16 with scale 0.01 at
address 100 inside block A = registers 100..101, global BE/ABCD. -/
def S1map : RegisterMap :=
  ⟨.BE, .ABCD, [⟨"A", 3, 100, 2⟩],
    [("ph", ⟨100, .u16, some (1 / 100), none, none, none, none, none, false⟩)]⟩

/-- Block buffer of scenario S1. -/
def S1buf : List Byte := [byte 0x02, byte 0xE4, byte 0x00, byte 0x00]

/-- Register map of scenario S2: point temp1_C as float32 with
per-point word order CDAB at address 200 inside a block of two
registers starting at 200. -/
def S2map : RegisterMap :=
  ⟨.BE, .ABCD, [⟨"B", 3, 200, 2⟩],
    [("temp1_C", ⟨200, .float32, none, none, none, some .CDAB, none, none, false⟩)]⟩

/-- Block buffer of scenario S2. -/
def S2buf : List Byte := [byte 0x00, byte 0x00, byte 0x41, byte 0xC8]

/-- A family context used by the poll counterexample. -/
def famU : FamilyCtx := ⟨"util", S1map⟩

/-- A device used by the poll counterexample. -/
def devU : Device := ⟨"T01", "10.0.0.5", 1⟩

/-- The empty gateway state. -/
def st0G : GatewayState := ⟨[], [], [], []⟩

/-- The default alarm configuration (ph 7.2..8.2, temp 18..27.5, qc
alarms enabled). -/
def cfg0 : AlarmConfig := ⟨72 / 10, 82 / 10, 18, 55 / 2, true⟩

/-- The default alarm configuration with the qc master toggle off. -/
def cfgOff : AlarmConfig := ⟨72 / 10, 82 / 10, 18, 55 / 2, false⟩

/-- A failing telemetry frame for tank T01. -/
def payloadFail : Payload := ⟨"T01", [], ⟨"fail", some "timeout"⟩⟩

/-- The empty alarm service state. -/
def st0A : AlarmServiceState := ⟨[], [], []⟩

/-- The empty logger state. -/
def st0L : LogState := ⟨[], [], []⟩

/-- A telemetry payload for the logger witnesses. -/
def payL0 : LogPayload := ⟨none, some "ctrl", some "s1", some "T01", none, none, [("ph", .num 7)]⟩

/-- A register map with one scaled u16 point, for the write/decode
round-trip counterexample. -/
def mC4 : RegisterMap :=
  ⟨.BE, .ABCD, [⟨"W", 3, 0, 1⟩],
    [("p", ⟨0, .u16, some (1 / 100), none, none, none, none, none, false⟩)]⟩

/-- The point definition of ph in the S1 register map. -/
def dPh : PointDef := ⟨100, .u16, some (1 / 100), none, none, none, none, none, false⟩

/-- A payload whose counter_value is 5.25 — the per-tank logger rounds
it to 5.3 instead of truncating it to 5. -/
def payC7 : LogPayload :=
  ⟨none, some "ctrl", some "s1", some "T01", none, none, [("counter_value", .num (21 / 4))]⟩

end Symon

namespace Symon

/-! Claim theorems. -/

/-- C3: decodePointsFromBlocks locates the enclosing block by address
containment, reads at byteIndex = (addr − start)·2 under the resolved
byte/word order and applies scale and offset; concretely, scenario S1
decodes ph to 7.40 and scenario S2 decodes temp1_C to 25.0. -/
theorem C3_decode_scenarios :
    decodePointsFromBlocks S1map [("A", S1buf)] = [("ph", some (.num (74 / 10)))] ∧
    decodePointsFromBlocks S2map [("B", S2buf)] = [("temp1_C", some (.num 25))] := by
  constructor
  · norm_num [decodePointsFromBlocks, decodePoint, findBlock, lookupKV,
      resolveByteOrder, resolveWordOrder, wordsForType, readU16, readI16,
      readU32FromBytes, readF32FromBytes, f32ValOfBits, assemble32, slice2,
      jsMul, jsAdd, S1map, S1buf, byte]
  · norm_num [decodePointsFromBlocks, decodePoint, findBlock, lookupKV,
      resolveByteOrder, resolveWordOrder, wordsForType, readU16, readI16,
      readU32FromBytes, readF32FromBytes, f32ValOfBits, assemble32, slice2,
      jsMul, jsAdd, S2map, S2buf, byte]

/-- C9: with an empty webhook URL, processTelemetryForAlarms returns
its state unchanged — no connectivity tracking, no alarm transitions,
no pending events — while getAlarmThresholds still returns the
configuration. -/
theorem C9_webhook_empty_noop :
    ∀ (cfg : AlarmConfig) (thresholdMs : ℕ) (payload : Payload)
      (family : String) (now : ℕ) (st : AlarmServiceState),
      processTelemetryForAlarms "" cfg thresholdMs payload family now st = st ∧
      getAlarmThresholds cfg = cfg := by
  intro cfg thresholdMs payload family now st
  exact ⟨by simp [processTelemetryForAlarms], rfl⟩

/-- C1 is refuted for the backend/src/server.js variant of pollDevice:
polling a device whose transport read throws leaves the live cache
without any entry for the tank (the claim requires a qc=fail entry). -/
theorem C1_counterexample :
    lookupKV (pollDeviceS "dev01" famU devU "t1" (.error "timeout") st0G).liveCache
        "T01" = none ∧
    (pollDeviceS "dev01" famU devU "t1" (.error "timeout") st0G).liveCache =
      st0G.liveCache := by
  constructor
  · simp [pollDeviceS, st0G, lookupKV]
  · simp [pollDeviceS]

/-- C1 (amended): on a transport failure pollDevice builds a failure
frame with qc status fail, qc.error the thrown message and empty s,
still publishes it and still feeds it to the alarm engine in both
source variants; the unnamed variant also rewrites the live cache
entry of the tank to carry qc=fail and the frame's ts_utc, while the
backend/src/server.js variant leaves the live cache unchanged on
failure. -/
theorem C1_fail_frame_effects :
    ∀ (siteId : String) (fam : FamilyCtx) (dev : Device) (now e : String)
      (st : GatewayState),
      (failFrame siteId now dev.tankId (fam.family ++ "-" ++ dev.tankId) e).qc =
        ⟨"fail", some e⟩ ∧
      (failFrame siteId now dev.tankId (fam.family ++ "-" ++ dev.tankId) e).s = [] ∧
      (pollDeviceU siteId fam dev now (.error e) st).liveCache =
        setKV dev.tankId ⟨fam.family, dev.ip, some now, "fail", []⟩ st.liveCache ∧
      (pollDeviceU siteId fam dev now (.error e) st).published =
        st.published ++ [failFrame siteId now dev.tankId (fam.family ++ "-" ++ dev.tankId) e] ∧
      (pollDeviceU siteId fam dev now (.error e) st).alarmFed =
        st.alarmFed ++
          [(failFrame siteId now dev.tankId (fam.family ++ "-" ++ dev.tankId) e, fam.family)] ∧
      (pollDeviceS siteId fam dev now (.error e) st).liveCache = st.liveCache ∧
      (pollDeviceS siteId fam dev now (.error e) st).published =
        st.published ++ [failFrame siteId now dev.tankId (fam.family ++ "-" ++ dev.tankId) e] ∧
      (pollDeviceS siteId fam dev now (.error e) st).alarmFed =
        st.alarmFed ++
          [(failFrame siteId now dev.tankId (fam.family ++ "-" ++ dev.tankId) e, fam.family)] := by
  intro siteId fam dev now e st
  refine ⟨rfl, rfl, ?_, rfl, rfl, rfl, rfl, rfl⟩
  simp [pollDeviceU, updateLiveCache, failFrame]

/-- C5 is refuted: under the unconditional setInterval cadence of
start(), with the default 60 s period and a tick lasting 90 s, ticks 0
and 1 are both in flight at t = 60000 — nothing skips the new tick. -/
theorem C5_counterexample : ticksOverlap 60000 (fun _ => 90000) :=
  ⟨0, 1, 60000, by decide,
    by constructor <;> simp [tickRunningAt, tickStartTime],
    by constructor <;> simp [tickRunningAt, tickStartTime]⟩

/-- C5 (amended): start() launches tick k at k·POLL_MS without any
in-flight guard: whenever a tick's duration exceeds POLL_MS it is
still running when the next tick starts, so the two overlap; no two
ticks overlap only in executions where every tick fits within the
cadence. -/
theorem C5_no_overlap_guard :
    ∀ (pollMs : ℕ) (dur : ℕ → ℕ), 0 < pollMs →
      ((∀ k, dur k ≤ pollMs) → ¬ ticksOverlap pollMs dur) ∧
      (∀ k, pollMs < dur k → 0 < dur (k + 1) →
        tickRunningAt pollMs dur k ((k + 1) * pollMs) ∧
        tickRunningAt pollMs dur (k + 1) ((k + 1) * pollMs)) := by
  intro pollMs dur _hp
  constructor
  · rintro hfit ⟨j, k, t, hjk, hj, hk⟩
    rcases lt_or_gt_of_ne hjk with h | h
    · have h1 : t < (j + 1) * pollMs := by
        have := hj.2
        have hd := hfit j
        simp only [tickRunningAt, tickStartTime] at this ⊢
        nlinarith
      have h2 : (j + 1) * pollMs ≤ k * pollMs := Nat.mul_le_mul_right _ h
      have h3 : k * pollMs ≤ t := hk.1
      omega
    · have h1 : t < (k + 1) * pollMs := by
        have := hk.2
        have hd := hfit k
        simp only [tickRunningAt, tickStartTime] at this ⊢
        nlinarith
      have h2 : (k + 1) * pollMs ≤ j * pollMs := Nat.mul_le_mul_right _ h
      have h3 : j * pollMs ≤ t := hj.1
      omega
  · intro k hk hk1
    constructor
    · exact ⟨Nat.mul_le_mul_right _ (Nat.le_succ k),
        by simp only [tickStartTime]; nlinarith⟩
    · exact ⟨le_rfl, by simp only [tickStartTime]; omega⟩

/-- Lookup skips over an update of a different key. -/
theorem lookupKV_setKV_ne {α β : Type} [BEq α] [LawfulBEq α] (k k2 : α) (v : β)
    (l : List (α × β)) (h : k ≠ k2) : lookupKV (setKV k v l) k2 = lookupKV l k2 := by
  simp [setKV, lookupKV, h]

/-- applyEdge for a rule other than qc_fail neither moves the qc_fail
alarm entry of any tank nor adds a qc_fail event. -/
theorem applyEdge_preserves_qcfail (st : AlarmServiceState)
    (ruleId tankId family : String) (active : Bool) (now : ℕ) (t : String)
    (h : ruleId ≠ "qc_fail") :
    lookupKV (applyEdge st ruleId tankId family active now).alarmState ("qc_fail", t) =
      lookupKV st.alarmState ("qc_fail", t) ∧
    (applyEdge st ruleId tankId family active now).pendingEvents.filter
        (fun ev => ev.ruleId == "qc_fail") =
      st.pendingEvents.filter (fun ev => ev.ruleId == "qc_fail") := by
  have hkey : (ruleId, tankId) ≠ (("qc_fail" : String), t) := by
    intro hc
    exact h (congrArg Prod.fst hc)
  unfold applyEdge updateRuleState
  by_cases hab :
      active = ((lookupKV st.alarmState (ruleId, tankId)).getD ⟨false, 0⟩).active
  · simp [hab]
  · simp [hab, lookupKV_setKV_ne _ _ _ _ hkey, List.filter_append, h]

/-- processRule for a rule other than qc_fail neither moves the
qc_fail alarm entry of any tank nor adds a qc_fail event. -/
theorem processRule_preserves_qcfail (cfg : AlarmConfig) (thresholdMs : ℕ)
    (payload : Payload) (family qcStatus : String) (conn : ConnState) (now : ℕ)
    (st : AlarmServiceState) (rule : Rule) (t : String) (h : rule.id ≠ "qc_fail") :
    lookupKV (processRule cfg thresholdMs payload family qcStatus conn now
        st rule).alarmState ("qc_fail", t) =
      lookupKV st.alarmState ("qc_fail", t) ∧
    (processRule cfg thresholdMs payload family qcStatus conn now
        st rule).pendingEvents.filter (fun ev => ev.ruleId == "qc_fail") =
      st.pendingEvents.filter (fun ev => ev.ruleId == "qc_fail") := by
  unfold processRule
  repeat' split
  all_goals first
    | exact ⟨rfl, rfl⟩
    | exact applyEdge_preserves_qcfail _ _ _ _ _ _ _ h

/-- With the qc master toggle off, the whole rule fold neither moves
the qc_fail alarm entry of any tank nor adds a qc_fail event. -/
theorem foldRules_qc_disabled (cfg : AlarmConfig) (thresholdMs : ℕ)
    (payload : Payload) (family qcStatus : String) (conn : ConnState) (now : ℕ)
    (st : AlarmServiceState) (t : String) (hoff : cfg.qcAlarmsEnabled = false) :
    lookupKV ((alarmRules cfg).foldl
        (processRule cfg thresholdMs payload family qcStatus conn now) st).alarmState
        ("qc_fail", t) =
      lookupKV st.alarmState ("qc_fail", t) ∧
    ((alarmRules cfg).foldl
        (processRule cfg thresholdMs payload family qcStatus conn now)
        st).pendingEvents.filter (fun ev => ev.ruleId == "qc_fail") =
      st.pendingEvents.filter (fun ev => ev.ruleId == "qc_fail") := by
  simp only [alarmRules, List.foldl_cons, List.foldl_nil]
  obtain ⟨ha1, hp1⟩ := processRule_preserves_qcfail cfg thresholdMs payload family
    qcStatus conn now st
    ⟨"ctrl_ph_out_of_range", some "ctrl", "metric_threshold", some "ph",
      some cfg.phLow, some cfg.phHigh⟩ t (by simp)
  obtain ⟨ha2, hp2⟩ := processRule_preserves_qcfail cfg thresholdMs payload family
    qcStatus conn now
    (processRule cfg thresholdMs payload family qcStatus conn now st
      ⟨"ctrl_ph_out_of_range", some "ctrl", "metric_threshold", some "ph",
        some cfg.phLow, some cfg.phHigh⟩)
    ⟨"ctrl_temp_out_of_range", some "ctrl", "metric_threshold", some "temp1_C",
      some cfg.tempLow, some cfg.tempHigh⟩ t (by simp)
  have h3 : ∀ s : AlarmServiceState,
      processRule cfg thresholdMs payload family qcStatus conn now s
        ⟨"qc_fail", none, "qc_fail", none, none, none⟩ = s := by
    intro s
    simp [processRule, hoff]
  rw [h3]
  exact ⟨ha2.trans ha1, hp2.trans hp1⟩

/-- C2: the connectivity bookkeeping of processTelemetryForAlarms and
the qc_fail activity test. An ok frame resets the state to lastOk=now;
a fail frame increments consecutiveFails and stamps firstFail when
null; offlineMs is now minus (lastOk else firstFail else now); the
rule is active exactly when offlineMs reaches CONNECTIVITY_ALARM_MS;
and with connectivity.qcAlarmsEnabled=false the rule is skipped: its
(rule, tank) alarm entry does not move and no qc_fail event is added. -/
theorem C2_qc_fail_connectivity :
    ∀ (conn : ConnState) (now thresholdMs : ℕ) (qcStatus : String)
      (webhookUrl : String) (cfg : AlarmConfig) (payload : Payload)
      (family : String) (st : AlarmServiceState),
      0 < thresholdMs →
      (updateConn conn "ok" now = ⟨some now, none, 0⟩) ∧
      (updateConn conn "fail" now =
        ⟨conn.lastOk, some (conn.firstFail.getD now), conn.consecutiveFails + 1⟩) ∧
      (qcOfflineMs conn now = now - (conn.lastOk.getD (conn.firstFail.getD now))) ∧
      ((qcStatus = "ok" ∨ qcStatus = "fail") →
        (qcFailActive qcStatus (updateConn conn qcStatus now) now thresholdMs = true ↔
          thresholdMs ≤ qcOfflineMs (updateConn conn qcStatus now) now)) ∧
      (cfg.qcAlarmsEnabled = false →
        lookupKV (processTelemetryForAlarms webhookUrl cfg thresholdMs payload family
            now st).alarmState ("qc_fail", payload.tank_id) =
          lookupKV st.alarmState ("qc_fail", payload.tank_id) ∧
        (processTelemetryForAlarms webhookUrl cfg thresholdMs payload family now
            st).pendingEvents.filter (fun ev => ev.ruleId == "qc_fail") =
          st.pendingEvents.filter (fun ev => ev.ruleId == "qc_fail")) := by
  intro conn now thresholdMs qcStatus webhookUrl cfg payload family st hT
  refine ⟨by simp [updateConn], by simp [updateConn], ?_, ?_, ?_⟩
  · obtain ⟨lo, ff, cf⟩ := conn
    cases lo <;> cases ff <;> simp [qcOfflineMs]
  · rintro (rfl | rfl)
    · simp [updateConn, qcFailActive, qcOfflineMs]
      omega
    · simp [qcFailActive, decide_eq_true_iff]
  · intro hoff
    by_cases hw : webhookUrl = ""
    · simp [processTelemetryForAlarms, hw]
    by_cases htk : payload.tank_id = ""
    · simp [processTelemetryForAlarms, hw, htk]
    unfold processTelemetryForAlarms
    rw [if_neg hw, if_neg htk]
    exact foldRules_qc_disabled _ _ _ _ _ _ _ _ _ hoff

/-- Witness for the C2 theorem: a first-fail frame at t = 7200000 ms
with a one-hour threshold instantiates the connectivity bookkeeping
and the activity equivalence. -/
theorem C2_qc_fail_connectivity_witness :
    (0 < 3600000) ∧
    (qcFailActive "fail" (updateConn ⟨none, none, 0⟩ "fail" 7200000) 7200000 3600000
        = true ↔
      3600000 ≤ qcOfflineMs (updateConn ⟨none, none, 0⟩ "fail" 7200000) 7200000) :=
  ⟨by norm_num,
    (C2_qc_fail_connectivity ⟨none, none, 0⟩ 7200000 3600000 "fail" "https://hook"
      cfg0 payloadFail "util" st0A (by norm_num)).2.2.2.1 (Or.inr rfl)⟩

/-- logTelemetry either drops the call (state unchanged, rate window
not yet elapsed) or stamps the rate key and appends exactly one row. -/
theorem logTelemetry_cases (minI : ℤ) (fsRead : String → WhitelistFile)
    (payload : LogPayload) (ov : Option String) (now : ℤ) (st : LogState) :
    (now - (lookupKV st.lastWrite (rateKeyOf payload ov)).getD 0 < minI ∧
      logTelemetry minI fsRead payload ov now st = st) ∨
    (minI ≤ now - (lookupKV st.lastWrite (rateKeyOf payload ov)).getD 0 ∧
      (logTelemetry minI fsRead payload ov now st).lastWrite =
        setKV (rateKeyOf payload ov) now st.lastWrite ∧
      (logTelemetry minI fsRead payload ov now st).queue.length =
        st.queue.length + 1) := by
  by_cases h : now - (lookupKV st.lastWrite (rateKeyOf payload ov)).getD 0 < minI
  · exact Or.inl ⟨h, by simp [logTelemetry, h]⟩
  · exact Or.inr ⟨le_of_not_lt h, by simp [logTelemetry, h], by simp [logTelemetry, h]⟩

/-- The accepted times of a rate key, seeded with the recorded last
write time, always climb by at least the rate interval. -/
theorem acceptedTimes_chain (minI : ℤ) (fsRead : String → WhitelistFile)
    (key : String) :
    ∀ (calls : List (LogPayload × Option String × ℤ)) (st : LogState),
      List.Chain' (fun a b => minI ≤ b - a)
        (((lookupKV st.lastWrite key).getD 0) ::
          acceptedTimesForKey minI fsRead key calls st)
  | [], st => by simp [acceptedTimesForKey]
  | c :: cs, st => by
    rw [acceptedTimesForKey]
    rcases logTelemetry_cases minI fsRead c.1 c.2.1 c.2.2 st with
      ⟨hlt, heq⟩ | ⟨hge, hlw, hq⟩
    · have hcond : ¬(rateKeyOf c.1 c.2.1 = key ∧
          st.queue.length < st.queue.length) := by
        rintro ⟨-, hq2⟩
        exact lt_irrefl _ hq2
      simp only [heq]
      rw [if_neg hcond]
      exact acceptedTimes_chain minI fsRead key cs st
    · by_cases hk : rateKeyOf c.1 c.2.1 = key
      · rw [if_pos ⟨hk, by omega⟩]
        have ih := acceptedTimes_chain minI fsRead key cs
          (logTelemetry minI fsRead c.1 c.2.1 c.2.2 st)
        have hlook : (lookupKV (logTelemetry minI fsRead c.1 c.2.1 c.2.2
            st).lastWrite key).getD 0 = c.2.2 := by
          rw [hlw, ← hk]
          simp [setKV, lookupKV]
        rw [hlook] at ih
        exact List.Chain'.cons (by rw [← hk]; omega) ih
      · rw [if_neg (by rintro ⟨hc, -⟩; exact hk hc)]
        have ih := acceptedTimes_chain minI fsRead key cs
          (logTelemetry minI fsRead c.1 c.2.1 c.2.2 st)
        have hlook : lookupKV (logTelemetry minI fsRead c.1 c.2.1 c.2.2
            st).lastWrite key = lookupKV st.lastWrite key := by
          rw [hlw]
          exact lookupKV_setKV_ne _ _ _ _ hk
        rw [hlook] at ih
        exact ih

/-- C6: between consecutive accepted rows of one (family, site, tank)
rate key at least MIN_INTERVAL_MS elapses (the accepted times, seeded
with the recorded last write, form a chain with gaps of at least the
interval); a call arriving earlier returns with the state unchanged —
nothing written; and the default interval is 30 s. -/
theorem C6_rate_limit_monotone :
    ∀ (minI : ℤ) (fsRead : String → WhitelistFile) (key : String)
      (calls : List (LogPayload × Option String × ℤ)) (st : LogState)
      (payload : LogPayload) (ov : Option String) (now : ℤ),
      List.Chain' (fun a b => minI ≤ b - a)
        (((lookupKV st.lastWrite key).getD 0) ::
          acceptedTimesForKey minI fsRead key calls st) ∧
      (now - (lookupKV st.lastWrite (rateKeyOf payload ov)).getD 0 < minI →
        logTelemetry minI fsRead payload ov now st = st) ∧
      MIN_INTERVAL_MS_default = 30000 := by
  intro minI fsRead key calls st payload ov now
  refine ⟨acceptedTimes_chain minI fsRead key calls st, ?_, rfl⟩
  intro h
  simp [logTelemetry, h]

/-- Witness for the C6 theorem: an early call 10 ms after the epoch of
an empty state is dropped without writing. -/
theorem C6_rate_limit_monotone_witness :
    (10 - (lookupKV st0L.lastWrite (rateKeyOf payL0 none)).getD 0 < 30000) ∧
    logTelemetry 30000 (fun _ => none) payL0 none 10 st0L = st0L :=
  ⟨by simp [st0L, lookupKV],
    (C6_rate_limit_monotone 30000 (fun _ => none) "k" [] st0L payL0 none 10).2.1
      (by simp [st0L, lookupKV])⟩

/-- Filtering a sensor dictionary with the empty whitelist keeps
nothing. -/
theorem filteredSubsetB_nil_allow (s : List (String × JSNum)) :
    filteredSubsetB s [] = [] := by
  simp [filteredSubsetB]

/-- C10: when the whitelist file of a family is missing or invalid,
an accepted logTelemetry call still writes its row, but the row holds
only ts_hst and tank_id; the empty whitelist is cached for the family,
and a later accepted call for the same family keeps the bare row and
the cached empty whitelist even if the file has become readable. -/
theorem C10_whitelist_failure :
    ∀ (minI : ℤ) (fsRead fsRead2 : String → WhitelistFile)
      (payload payload2 : LogPayload) (ov ov2 : Option String) (now now2 : ℤ)
      (st : LogState),
      famOf payload2 ov2 = famOf payload ov →
      lookupKV st.whitelistCache (famOf payload ov) = none →
      (fsRead (famOf payload ov) = none ∨ fsRead (famOf payload ov) = some none) →
      minI ≤ now - (lookupKV st.lastWrite (rateKeyOf payload ov)).getD 0 →
      ((logTelemetry minI fsRead payload ov now st).queue =
        st.queue ++ [(streamKeyOf payload ov now,
          [("ts_hst", .jstr (nowHawaiiISO (payload.ts_utc.getD now))),
           ("tank_id", .jstr (payload.tank_id.getD "unknown"))])]) ∧
      lookupKV (logTelemetry minI fsRead payload ov now st).whitelistCache
          (famOf payload ov) = some [] ∧
      (minI ≤ now2 - (lookupKV (logTelemetry minI fsRead payload ov now
            st).lastWrite (rateKeyOf payload2 ov2)).getD 0 →
        ((logTelemetry minI fsRead2 payload2 ov2 now2
            (logTelemetry minI fsRead payload ov now st)).queue =
          (logTelemetry minI fsRead payload ov now st).queue ++
            [(streamKeyOf payload2 ov2 now2,
              [("ts_hst", .jstr (nowHawaiiISO (payload2.ts_utc.getD now2))),
               ("tank_id", .jstr (payload2.tank_id.getD "unknown"))])]) ∧
        lookupKV (logTelemetry minI fsRead2 payload2 ov2 now2
            (logTelemetry minI fsRead payload ov now st)).whitelistCache
            (famOf payload ov) = some []) := by
  intro minI fsRead fsRead2 payload payload2 ov ov2 now now2 st hfam hcache hfs hrate
  have hnl : ¬(now - (lookupKV st.lastWrite (rateKeyOf payload ov)).getD 0 < minI) :=
    not_lt.mpr hrate
  have hload : loadWhitelistForFamily fsRead st.whitelistCache (famOf payload ov) =
      ([], setKV (famOf payload ov) [] st.whitelistCache) := by
    rcases hfs with h1 | h1 <;> simp [loadWhitelistForFamily, hcache, h1]
  have hq1 : (logTelemetry minI fsRead payload ov now st).queue =
      st.queue ++ [(streamKeyOf payload ov now,
        [("ts_hst", .jstr (nowHawaiiISO (payload.ts_utc.getD now))),
         ("tank_id", .jstr (payload.tank_id.getD "unknown"))])] := by
    simp [logTelemetry, hnl, hload, filteredSubsetB_nil_allow]
  have hwc1 : (logTelemetry minI fsRead payload ov now st).whitelistCache =
      setKV (famOf payload ov) [] st.whitelistCache := by
    simp [logTelemetry, hnl, hload]
  have hlk1 : lookupKV (logTelemetry minI fsRead payload ov now
      st).whitelistCache (famOf payload ov) = some [] := by
    rw [hwc1]
    simp [setKV, lookupKV]
  refine ⟨hq1, hlk1, ?_⟩
  intro hrate2
  have hnl2 : ¬(now2 - (lookupKV (logTelemetry minI fsRead payload ov now
      st).lastWrite (rateKeyOf payload2 ov2)).getD 0 < minI) := not_lt.mpr hrate2
  have hlk2 : lookupKV (logTelemetry minI fsRead payload ov now
      st).whitelistCache (famOf payload2 ov2) = some [] := by
    rw [hfam]
    exact hlk1
  have hload2 : loadWhitelistForFamily fsRead2
      (logTelemetry minI fsRead payload ov now st).whitelistCache
      (famOf payload2 ov2) =
      ([], (logTelemetry minI fsRead payload ov now st).whitelistCache) := by
    simp [loadWhitelistForFamily, hlk2]
  constructor
  · conv_lhs => rw [logTelemetry]
    rw [if_neg hnl2]
    simp [hload2, filteredSubsetB_nil_allow]
  · conv_lhs => rw [logTelemetry]
    rw [if_neg hnl2]
    simp only [hload2]
    exact hlk1

/-- Witness for the C10 theorem: a missing whitelist file, an empty
cache and an accepted call at t = 40000 ms yield the cached empty
whitelist for the family. -/
theorem C10_whitelist_failure_witness :
    lookupKV (logTelemetry 30000 (fun _ => none) payL0 none 40000
        st0L).whitelistCache (famOf payL0 none) = some [] :=
  (C10_whitelist_failure 30000 (fun _ => none) (fun _ => some (some ["ph"]))
    payL0 payL0 none none 40000 80000 st0L rfl (by simp [st0L, lookupKV])
    (Or.inl rfl) (by simp [st0L, lookupKV])).2.1

/-- Lookup through a filtered and value-mapped sensor dictionary. -/
theorem lookupKV_filterMap (allow : List String) (k : String)
    (f : String → JSNum → JVal) :
    ∀ s : List (String × JSNum),
      lookupKV ((s.filter (fun kv => allow.contains kv.1)).map
          (fun kv => (kv.1, f kv.1 kv.2))) k =
        (if allow.contains k then (lookupKV s k).map (f k) else none) := by
  intro s
  induction s with
  | nil => simp [lookupKV]
  | cons kv t ih =>
    obtain ⟨k0, v⟩ := kv
    by_cases h0 : k0 ∈ allow
    · by_cases hk : k0 = k
      · subst hk
        simp [lookupKV, List.filter_cons, h0]
      · simp at ih
        simp [lookupKV, List.filter_cons, h0, hk, ih]
    · by_cases hk : k0 = k
      · subst hk
        simp at ih
        simp [lookupKV, List.filter_cons, h0, ih]
      · simp at ih
        simp [lookupKV, List.filter_cons, h0, hk, ih]

/-- C7 is refuted for the per-tank logging variant: a whitelisted
counter_value of 5.25 is emitted as 5.3 (rounded to one decimal), not
truncated to the integer 5. -/
theorem C7_counterexample :
    (logTelemetry 30000 (fun _ => some (some ["counter_value"])) payC7 none 40000
        st0L).queue =
      [(streamKeyOf payC7 none 40000,
        [("ts_hst", .jstr (nowHawaiiISO 40000)), ("tank_id", .jstr "T01"),
         ("counter_value", .jnum (.num (53 / 10)))])] ∧
    (53 / 10 : ℚ) ≠ 5 := by
  constructor
  · simp only [logTelemetry, payC7, st0L, rateKeyOf, famOf, streamKeyOf,
      loadWhitelistForFamily, lookupKV, filteredSubsetB, truncateValueB, jsRound]
    norm_num [lookupKV, List.filter, nowHawaiiISO, todayStrHawaii]
  · norm_num

/-- C7 (amended): in rows of the per-family logging variant each
whitelisted finite numeric value is rounded to one decimal place
except the fields counter_value and timer_seconds, which Math.trunc
maps to integers; in rows of the per-tank logging variant every
whitelisted finite numeric value is rounded to one decimal place, the
counter fields included — that variant has no truncation exception. -/
theorem C7_truncation_by_variant :
    ∀ (key : String) (q : ℚ) (s : List (String × JSNum)) (allow : List String),
      ((key = "counter_value" ∨ key = "timer_seconds") →
        truncateValueA key (.num q) = .num (jsTrunc q)) ∧
      (¬(key = "counter_value" ∨ key = "timer_seconds") →
        truncateValueA key (.num q) = .num ((jsRound (q * 10) : ℚ) / 10)) ∧
      (truncateValueB key (.num q) = .num ((jsRound (q * 10) : ℚ) / 10)) ∧
      (lookupKV (filteredSubsetA s allow) key =
        (if allow.contains key then (lookupKV s key).map
          (fun w => JVal.jnum (truncateValueA key w)) else none)) ∧
      (lookupKV (filteredSubsetB s allow) key =
        (if allow.contains key then (lookupKV s key).map
          (fun w => JVal.jnum (truncateValueB key w)) else none)) := by
  intro key q s allow
  refine ⟨?_, ?_, rfl, ?_, ?_⟩
  · intro h
    simp [truncateValueA, h]
  · intro h
    simp [truncateValueA, h]
  · simpa [filteredSubsetA] using
      lookupKV_filterMap allow key (fun k0 w => JVal.jnum (truncateValueA k0 w)) s
  · simpa [filteredSubsetB] using
      lookupKV_filterMap allow key (fun k0 w => JVal.jnum (truncateValueB k0 w)) s

/-- Witness for the amended C7 theorem: counter_value 5.25 truncates
to 5 in the per-family variant and rounds to 5.3 in the per-tank
variant. -/
theorem C7_truncation_by_variant_witness :
    truncateValueA "counter_value" (.num (21 / 4)) = .num (jsTrunc (21 / 4)) ∧
    truncateValueB "counter_value" (.num (21 / 4)) =
      .num ((jsRound (21 / 4 * 10) : ℚ) / 10) :=
  ⟨(C7_truncation_by_variant "counter_value" (21 / 4) [] []).1 (Or.inl rfl),
    (C7_truncation_by_variant "counter_value" (21 / 4) [] []).2.2.1⟩

/-- A 32-bit read of a buffer that is not exactly four bytes long
throws in Node and is undefined here. -/
theorem readU32FromBytes_ne_four (b4 : List Byte) (bo : ByteOrder)
    (h : b4.length ≠ 4) : readU32FromBytes b4 bo = none := by
  rcases b4 with _ | ⟨a, _ | ⟨b, _ | ⟨c, _ | ⟨d, _ | ⟨e, rest⟩⟩⟩⟩⟩ <;>
    first
      | rfl
      | exact absurd rfl h

/-- A 16-bit read past the end of the buffer is undefined. -/
theorem readU16_too_short (buf : List Byte) (off : Nat) (bo : ByteOrder)
    (h : buf.length < off + 2) : readU16 buf off bo = none := by
  have h1 : buf[off + 1]? = none := by
    rw [List.getElem?_eq_none_iff]
    omega
  rcases h0 : buf[off]? with _ | b0 <;> simp [readU16, h0, h1]

/-- The two-byte slice keeps at most the bytes that exist. -/
theorem slice2_length (buf : List Byte) (off : Nat) :
    (slice2 buf off).length = min 2 (buf.length - off) := by
  simp [slice2]

/-- C8: decodePointsFromBlocks is total — its output lists every
declared point, whatever the buffers; a point whose enclosing block is
unmatched or whose block buffer is missing decodes to undefined; a
read past the end of its block buffer decodes to undefined; and each
point's value depends only on its own block's buffer, so no input
aborts the rest of the frame. -/
theorem C8_decode_never_throws :
    ∀ (m : RegisterMap) (buffers buffers2 : List (String × List Byte))
      (d : PointDef),
      (decodePointsFromBlocks m buffers).map Prod.fst = m.points.map Prod.fst ∧
      (findBlock m.blocks d.addr (wordsForType d.type) = none →
        decodePoint m buffers d = none) ∧
      (∀ blk, findBlock m.blocks d.addr (wordsForType d.type) = some blk →
        lookupKV buffers blk.name = none →
        decodePoint m buffers d = none) ∧
      (∀ blk buf, findBlock m.blocks d.addr (wordsForType d.type) = some blk →
        lookupKV buffers blk.name = some buf →
        buf.length < (d.addr - blk.start) * 2 + 2 * wordsForType d.type →
        decodePoint m buffers d = none) ∧
      (∀ blk, findBlock m.blocks d.addr (wordsForType d.type) = some blk →
        lookupKV buffers blk.name = lookupKV buffers2 blk.name →
        decodePoint m buffers d = decodePoint m buffers2 d) := by
  intro m buffers buffers2 d
  refine ⟨?_, ?_, ?_, ?_, ?_⟩
  · simp [decodePointsFromBlocks]
  · intro h
    simp [decodePoint, h]
  · intro blk hblk hbuf
    simp [decodePoint, hblk, hbuf]
  · intro blk buf hblk hbuf hlen
    have h32 : ∀ wo bo, buf.length < (d.addr - blk.start) * 2 + 4 →
        readU32FromBytes
          (assemble32 (slice2 buf ((d.addr - blk.start) * 2))
            (slice2 buf ((d.addr - blk.start) * 2 + 2)) wo) bo = none := by
      intro wo bo hl
      refine readU32FromBytes_ne_four _ _ ?_
      have l1 := slice2_length buf ((d.addr - blk.start) * 2)
      have l2 := slice2_length buf ((d.addr - blk.start) * 2 + 2)
      cases wo <;> simp only [assemble32, List.length_append] <;> omega
    cases htype : d.type <;> rw [htype] at hblk hlen <;>
      simp only [wordsForType] at hblk hlen
    case u16 =>
      have h16 : readU16 buf ((d.addr - blk.start) * 2) (resolveByteOrder m d) = none :=
        readU16_too_short _ _ _ (by omega)
      simp [decodePoint, htype, wordsForType, hblk, hbuf, h16]
    case i16 =>
      have h16 : readU16 buf ((d.addr - blk.start) * 2) (resolveByteOrder m d) = none :=
        readU16_too_short _ _ _ (by omega)
      simp [decodePoint, htype, wordsForType, hblk, hbuf, readI16, h16]
    case u32 =>
      simp [decodePoint, htype, wordsForType, hblk, hbuf,
        h32 (resolveWordOrder m d) (resolveByteOrder m d) (by omega)]
    case i32 =>
      simp [decodePoint, htype, wordsForType, hblk, hbuf,
        h32 (resolveWordOrder m d) (resolveByteOrder m d) (by omega)]
    case float32 =>
      simp [decodePoint, htype, wordsForType, hblk, hbuf, readF32FromBytes,
        h32 (resolveWordOrder m d) (resolveByteOrder m d) (by omega)]
  · intro blk hblk heq
    simp only [decodePoint, hblk, heq]

/-- Witness for the C8 theorem: with no buffers at all, the S1 map
still lists ph in its output and decodes it to undefined. -/
theorem C8_decode_never_throws_witness :
    (decodePointsFromBlocks S1map []).map Prod.fst = S1map.points.map Prod.fst ∧
    decodePoint S1map [] dPh = none :=
  ⟨(C8_decode_never_throws S1map [] [] dPh).1,
    (C8_decode_never_throws S1map [] [] dPh).2.2.1 ⟨"A", 3, 100, 2⟩ rfl rfl⟩

/-- A single block that exactly covers its point is found. -/
theorem findBlock_single (addr w : ℕ) (name : String) :
    findBlock [⟨name, 3, addr, w⟩] addr w = some ⟨name, 3, addr, w⟩ := by
  simp [findBlock, List.find?]

/-- A 16-bit value survives the byte split and read in either order. -/
theorem readU16_bytes16 (u : ℕ) (hu : u < 65536) (bo : ByteOrder) :
    readU16 (bytes16 u bo) 0 bo = some u := by
  cases bo <;> simp [bytes16, readU16, byte] <;> omega

/-- Two's-complement round trip of a 16-bit signed value. -/
theorem toInt16_emod (i : ℤ) (h1 : -32768 ≤ i) (h2 : i ≤ 32767) :
    toInt16 ((i % 65536).toNat) = i := by
  simp only [toInt16]
  split <;> omega

/-- Two's-complement round trip of a 32-bit signed value. -/
theorem toInt32_emod (i : ℤ) (h1 : -2147483648 ≤ i) (h2 : i ≤ 2147483647) :
    toInt32 ((i % 4294967296).toNat) = i := by
  simp only [toInt32]
  split <;> omega

/-- A 32-bit value survives the byte split and read in either order. -/
theorem readU32_bytes32 (u : ℕ) (hu : u < 4294967296) (bo : ByteOrder) :
    readU32FromBytes (bytes32 u bo) bo = some u := by
  cases bo <;> simp [bytes32, bytes32BE, readU32FromBytes, byte] <;> omega

/-- The byte quadruple of a 32-bit value has four bytes. -/
theorem bytes32_length (u : ℕ) (bo : ByteOrder) : (bytes32 u bo).length = 4 := by
  cases bo <;> simp [bytes32, bytes32BE]

/-- Reading back the joined FC16 words of a 4-byte quantity
reassembles the original buffer under the same word order. -/
theorem words_join_32 (b4 : List Byte) (h : b4.length = 4) (wo : WordOrder) :
    assemble32 (slice2 ((splitWords b4 wo).flatten) 0)
      (slice2 ((splitWords b4 wo).flatten) 2) wo = b4 := by
  rcases b4 with _ | ⟨a, b4⟩
  · simp at h
  rcases b4 with _ | ⟨b, b4⟩
  · simp at h
  rcases b4 with _ | ⟨c, b4⟩
  · simp at h
  rcases b4 with _ | ⟨d, b4⟩
  · simp at h
  rcases b4 with _ | ⟨e, b4⟩
  · cases wo <;> rfl
  · simp at h

/-- Rounding an integer returns it. -/
theorem roundHalfEven_intCast (n : ℤ) : roundHalfEven (n : ℚ) = n := by
  simp [roundHalfEven]

/-- The binary logarithm is pinned by a two-sided power bound. -/
theorem int_log2_eq (a : ℚ) (e : ℤ) (ha : 0 < a) (h1 : (2 : ℚ) ^ e ≤ a)
    (h2 : a < (2 : ℚ) ^ (e + 1)) : Int.log 2 a = e := by
  have hle : e ≤ Int.log 2 a := by
    refine (Int.zpow_le_iff_le_log (by norm_num) ha).mp ?_
    exact_mod_cast h1
  have hlt : Int.log 2 a < e + 1 := by
    refine (Int.lt_zpow_iff_log_lt (by norm_num) ha).mp ?_
    exact_mod_cast h2
  omega

/-- Decoding a normal positive pattern. -/
theorem f32ValOfBits_normal (E M : ℕ) (hE1 : 1 ≤ E) (hE2 : E ≤ 254)
    (hM : M < 2 ^ 23) :
    f32ValOfBits (E * 2 ^ 23 + M) =
      .num ((1 + (M : ℚ) / 2 ^ 23) * (2 : ℚ) ^ ((E : ℤ) - 127)) := by
  have h1 : (E * 2 ^ 23 + M) / 2 ^ 31 % 2 = 0 := by omega
  have h2 : (E * 2 ^ 23 + M) / 2 ^ 23 % 256 = E := by omega
  have h3 : (E * 2 ^ 23 + M) % 2 ^ 23 = M := by omega
  simp only [f32ValOfBits]
  rw [h1, h2, h3]
  rw [if_neg (show ¬(E = 255) by omega), if_neg (show ¬(E = 0) by omega),
    if_neg (show ¬((0 : ℕ) = 1) by norm_num)]

/-- Decoding a subnormal positive pattern. -/
theorem f32ValOfBits_subnormal (M : ℕ) (hM : M < 2 ^ 23) :
    f32ValOfBits M = .num ((M : ℚ) / 2 ^ 23 * (2 : ℚ) ^ (-126 : ℤ)) := by
  have h1 : M / 2 ^ 31 % 2 = 0 := by omega
  have h2 : M / 2 ^ 23 % 256 = 0 := by omega
  have h3 : M % 2 ^ 23 = M := by omega
  simp only [f32ValOfBits]
  rw [h1, h2, h3]
  rw [if_neg (show ¬((0 : ℕ) = 255) by norm_num), if_pos rfl,
    if_neg (show ¬((0 : ℕ) = 1) by norm_num)]

/-- Setting the sign bit of a finite pattern negates its value. -/
theorem f32ValOfBits_neg (w : ℕ) (hw : w < 2 ^ 31) (q : ℚ)
    (hq : f32ValOfBits w = .num q) :
    f32ValOfBits (2 ^ 31 + w) = .num (-q) := by
  have h0 : w / 2 ^ 31 % 2 = 0 := by omega
  have h1 : (2 ^ 31 + w) / 2 ^ 31 % 2 = 1 := by omega
  have h2 : (2 ^ 31 + w) / 2 ^ 23 % 256 = w / 2 ^ 23 % 256 := by omega
  have h3 : (2 ^ 31 + w) % 2 ^ 23 = w % 2 ^ 23 := by omega
  by_cases he : w / 2 ^ 23 % 256 = 255
  · exfalso
    simp only [f32ValOfBits] at hq
    rw [if_pos he] at hq
    by_cases hm : w % 2 ^ 23 = 0
    · rw [if_pos hm] at hq
      split at hq <;> exact JSNum.noConfusion hq
    · rw [if_neg hm] at hq
      exact JSNum.noConfusion hq
  · simp only [f32ValOfBits] at hq
    rw [h0, if_neg he, if_neg (show ¬((0 : ℕ) = 1) by norm_num)] at hq
    rw [JSNum.num.injEq] at hq
    simp only [f32ValOfBits]
    rw [h1, h2, h3, if_neg he, if_pos rfl, JSNum.num.injEq, hq]

/-- writeFloat of a negated value only sets the sign bit. -/
theorem f32Bits_neg (a : ℚ) (ha : 0 < a) : f32Bits (-a) = 2 ^ 31 + f32Bits a := by
  have h2 : (-a) < 0 := neg_lt_zero.mpr ha
  have h4 : ¬(a < 0) := not_lt.mpr ha.le
  rw [f32Bits, f32Bits, if_neg (by simpa using ha.ne'), if_neg ha.ne']
  simp only [if_pos h2, h4, if_false, ite_false, abs_neg]
  split_ifs <;> omega

/-- Encoding the subnormal positive magnitude of a pattern. -/
theorem f32Bits_pos_subnormal (M : ℕ) (hM1 : 1 ≤ M) (hM : M < 2 ^ 23) :
    f32Bits ((M : ℚ) / 2 ^ 23 * (2 : ℚ) ^ (-126 : ℤ)) = M := by
  set a : ℚ := (M : ℚ) / 2 ^ 23 * (2 : ℚ) ^ (-126 : ℤ) with hadef
  have hMq : (0 : ℚ) < (M : ℚ) := by exact_mod_cast hM1
  have hp : (0 : ℚ) < (2 : ℚ) ^ (-126 : ℤ) := zpow_pos (by norm_num) _
  have hapos : 0 < a := by rw [hadef]; positivity
  have hx1 : (M : ℚ) / 2 ^ 23 < 1 := by
    rw [div_lt_one (by positivity)]
    exact_mod_cast hM
  have hhigh : a < (2 : ℚ) ^ (-126 : ℤ) := by
    rw [hadef]
    nlinarith
  have hlog : Int.log 2 a < -126 := by
    refine (Int.lt_zpow_iff_log_lt (by norm_num) hapos).mp ?_
    exact_mod_cast hhigh
  have he0 : max (Int.log 2 a) (-126) = (-126 : ℤ) := by omega
  have hscaled : a * (2 : ℚ) ^ ((23 : ℤ) - (-126)) = ((M : ℤ) : ℚ) := by
    rw [hadef]
    rw [mul_assoc, ← zpow_add₀ (two_ne_zero (α := ℚ))]
    norm_num
  have hm : roundHalfEven (a * (2 : ℚ) ^ ((23 : ℤ) - (-126))) = (M : ℤ) := by
    rw [hscaled]
    exact roundHalfEven_intCast _
  have hne224 : ¬((M : ℤ) = 2 ^ 24) := by omega
  have hnlt : ¬((127 : ℤ) < -126) := by omega
  have hlt23 : ((M : ℤ) < 2 ^ 23) := by exact_mod_cast hM
  rw [f32Bits, if_neg hapos.ne']
  simp only [not_lt.mpr hapos.le, if_false, ite_false, abs_of_pos hapos, he0, hm,
    hne224, hnlt, hlt23, if_true, ite_true]
  omega

/-- Encoding the normal positive magnitude of a pattern. -/
theorem f32Bits_pos_normal (E M : ℕ) (hE1 : 1 ≤ E) (hE2 : E ≤ 254)
    (hM : M < 2 ^ 23) :
    f32Bits ((1 + (M : ℚ) / 2 ^ 23) * (2 : ℚ) ^ ((E : ℤ) - 127)) =
      E * 2 ^ 23 + M := by
  set x : ℚ := (M : ℚ) / 2 ^ 23 with hx
  have hx0 : 0 ≤ x := by rw [hx]; positivity
  have hx1 : x < 1 := by
    rw [hx, div_lt_one (by positivity)]
    exact_mod_cast hM
  set a : ℚ := (1 + x) * (2 : ℚ) ^ ((E : ℤ) - 127) with hadef
  have hp : (0 : ℚ) < (2 : ℚ) ^ ((E : ℤ) - 127) := zpow_pos (by norm_num) _
  have hapos : 0 < a := by rw [hadef]; positivity
  have hlow : (2 : ℚ) ^ ((E : ℤ) - 127) ≤ a := by
    rw [hadef]
    nlinarith
  have hhigh : a < (2 : ℚ) ^ ((E : ℤ) - 127 + 1) := by
    rw [hadef, zpow_add₀ (two_ne_zero (α := ℚ)), zpow_one]
    nlinarith
  have hlog : Int.log 2 a = (E : ℤ) - 127 := int_log2_eq a _ hapos hlow hhigh
  have he0 : max (Int.log 2 a) (-126) = (E : ℤ) - 127 := by
    rw [hlog]
    omega
  have hscaled : a * (2 : ℚ) ^ ((23 : ℤ) - ((E : ℤ) - 127)) =
      ((2 ^ 23 + M : ℤ) : ℚ) := by
    rw [hadef]
    rw [mul_assoc, ← zpow_add₀ (two_ne_zero (α := ℚ))]
    rw [show (E : ℤ) - 127 + (23 - ((E : ℤ) - 127)) = 23 by ring]
    rw [hx]
    push_cast
    rw [show ((2 : ℚ) ^ (23 : ℤ)) = ((2 : ℚ) ^ (23 : ℕ)) from zpow_natCast 2 23]
    field_simp
    ring
  have hm : roundHalfEven (a * (2 : ℚ) ^ ((23 : ℤ) - ((E : ℤ) - 127))) =
      ((2 ^ 23 + M : ℤ)) := by
    rw [hscaled]
    exact roundHalfEven_intCast _
  have hne224 : ¬((2 ^ 23 + M : ℤ) = 2 ^ 24) := by omega
  have hnlt : ¬((127 : ℤ) < (E : ℤ) - 127) := by omega
  have hnlt23 : ¬((2 ^ 23 + M : ℤ) < 2 ^ 23) := by omega
  rw [f32Bits, if_neg hapos.ne']
  simp only [not_lt.mpr hapos.le, if_false, ite_false, abs_of_pos hapos, he0, hm,
    hne224, hnlt, hnlt23, if_true, ite_true]
  omega

/-- Every finite single-precision value survives the encode/decode
round trip exactly. -/
theorem f32_roundtrip_exact (v : ℚ)
    (h : ∃ w, w < 2 ^ 32 ∧ w / 2 ^ 23 % 256 ≠ 255 ∧ f32ValOfBits w = .num v) :
    f32Bits v < 2 ^ 32 ∧ f32ValOfBits (f32Bits v) = .num v := by
  obtain ⟨w, hw, hEne, hval⟩ := h
  have hM : w % 2 ^ 23 < 2 ^ 23 := by omega
  have hE254 : w / 2 ^ 23 % 256 ≤ 254 := by omega
  have hS2 : w / 2 ^ 31 % 2 < 2 := by omega
  simp only [f32ValOfBits] at hval
  rw [if_neg hEne] at hval
  set S := w / 2 ^ 31 % 2 with hSdef
  set E := w / 2 ^ 23 % 256 with hEdef
  set M := w % 2 ^ 23 with hMdef
  by_cases hE0 : E = 0
  · rw [if_pos hE0] at hval
    by_cases hM0 : M = 0
    · have hv : v = 0 := by
        rw [hM0] at hval
        rcases (show S = 0 ∨ S = 1 by omega) with hS | hS <;> rw [hS] at hval
        · rw [if_neg (show ¬((0 : ℕ) = 1) by norm_num), JSNum.num.injEq] at hval
          rw [← hval]
          norm_num
        · rw [if_pos rfl, JSNum.num.injEq] at hval
          rw [← hval]
          norm_num
      rw [hv]
      rw [show f32Bits 0 = 0 from by rw [f32Bits, if_pos rfl]]
      have h0 := f32ValOfBits_subnormal 0 (by norm_num)
      rw [Nat.cast_zero] at h0
      rw [h0]
      norm_num
    · have hM1 : 1 ≤ M := by omega
      have hmagpos : (0 : ℚ) < (M : ℚ) / 2 ^ 23 * (2 : ℚ) ^ (-126 : ℤ) := by
        have hMq : (0 : ℚ) < (M : ℚ) := by exact_mod_cast hM1
        positivity
      rcases (show S = 0 ∨ S = 1 by omega) with hS | hS <;> rw [hS] at hval
      · rw [if_neg (show ¬((0 : ℕ) = 1) by norm_num), JSNum.num.injEq] at hval
        rw [← hval, f32Bits_pos_subnormal M hM1 hM]
        exact ⟨by omega, f32ValOfBits_subnormal M hM⟩
      · rw [if_pos rfl, JSNum.num.injEq] at hval
        rw [← hval, f32Bits_neg _ hmagpos, f32Bits_pos_subnormal M hM1 hM]
        exact ⟨by omega, f32ValOfBits_neg M (by omega) _ (f32ValOfBits_subnormal M hM)⟩
  · have hE1 : 1 ≤ E := by omega
    rw [if_neg hE0] at hval
    have hmagpos : (0 : ℚ) < (1 + (M : ℚ) / 2 ^ 23) * (2 : ℚ) ^ ((E : ℤ) - 127) := by
      positivity
    rcases (show S = 0 ∨ S = 1 by omega) with hS | hS <;> rw [hS] at hval
    · rw [if_neg (show ¬((0 : ℕ) = 1) by norm_num), JSNum.num.injEq] at hval
      rw [← hval, f32Bits_pos_normal E M hE1 hE254 hM]
      exact ⟨by omega, f32ValOfBits_normal E M hE1 hE254 hM⟩
    · rw [if_pos rfl, JSNum.num.injEq] at hval
      rw [← hval, f32Bits_neg _ hmagpos, f32Bits_pos_normal E M hE1 hE254 hM]
      exact ⟨by omega, f32ValOfBits_neg (E * 2 ^ 23 + M) (by omega) _
        (f32ValOfBits_normal E M hE1 hE254 hM)⟩

/-- C4 is refuted as stated: for the writable point p of type u16 with
scale 0.01, planWrite of the in-bounds value 100 produces words that
decode back to 1, not 100 — the decoder applies the scale that the
write plan does not invert. -/
theorem C4_counterexample :
    (planWrite mC4 "p" 100 true none).map
        (fun plan => decodePointsFromBlocks mC4 [("W", plan.words.flatten)]) =
      .ok [("p", some (JSNum.num 1))] ∧
    JSNum.num (1 : ℚ) ≠ JSNum.num (100 : ℚ) := by
  constructor
  · have h100 : (100 : ℤ).toNat = 100 := rfl
    norm_num [planWrite, mC4, lookupKV, encodeU16, bytes16, byte, splitWords,
      resolveByteOrder, resolveWordOrder, decodePointsFromBlocks, decodePoint,
      findBlock, List.find?, wordsForType, readU16, jsMul, Except.map, h100]
  · intro hc
    rw [JSNum.num.injEq] at hc
    norm_num at hc

/-- C4 (amended): for every writable point with no scale and no
offset, and every in-bounds value of its type (integral and in range
for u16/i16/u32/i32, exactly representable finite single precision for
float32, inside the safe bounds when declared), encoding with
planWrite (FC6 one word for 16-bit types, FC16 two words split per
word order for 32-bit types) and decoding the written registers with
decodePointsFromBlocks under the same byte/word order yields the value
back exactly. -/
theorem C4_write_decode_roundtrip :
    ∀ (bo : ByteOrder) (wo : WordOrder) (n : String) (d : PointDef) (v : ℚ)
      (allowClamp : Bool) (lastSet : Option ℚ),
      d.ro = false → d.scale = none → d.offset = none →
      inBoundsVal d.type v → withinSafeBounds d v →
      ∃ plan,
        planWrite (writeReadbackMap bo wo n d) n v allowClamp lastSet = .ok plan ∧
        plan.fc = (if wordsForType d.type = 1 then 6 else 16) ∧
        decodePointsFromBlocks (writeReadbackMap bo wo n d)
          [("W", plan.words.flatten)] = [(n, some (.num v))] := by
  intro bo wo n d v allowClamp lastSet hro hscale hoffset hbounds hsafe
  have hlk : lookupKV (writeReadbackMap bo wo n d).points n = some d := by
    simp [writeReadbackMap, lookupKV]
  have hbounded : (match d.safe_bounds with
      | some (lo, hi) =>
        if v < lo ∨ hi < v then
          if allowClamp then Except.ok (min hi (max lo v), "clamped")
          else Except.error "Out of bounds"
        else Except.ok (v, "ok")
      | none => Except.ok (v, "ok")) = Except.ok ((v, "ok") : ℚ × String) := by
    rcases hsb : d.safe_bounds with _ | ⟨lo, hi⟩
    · rfl
    · simp only [withinSafeBounds, hsb] at hsafe
      have h1 : ¬ v < lo := not_lt.mpr hsafe.1
      have h2 : ¬ hi < v := not_lt.mpr hsafe.2
      simp [h1, h2]
  have hden1 : v.den = 1 → ((v.num : ℤ) : ℚ) = v := by
    intro hden
    conv_rhs => rw [← Rat.num_div_den v]
    rw [hden]
    norm_num
  cases htype : d.type
  case u16 =>
    rw [htype] at hbounds
    simp only [inBoundsVal] at hbounds
    obtain ⟨hden, hge, hle⟩ := hbounds
    have hu : v.num.toNat < 65536 := by omega
    have hcast : ((v.num.toNat : ℕ) : ℚ) = v := by
      rw [show ((v.num.toNat : ℕ) : ℚ) = ((v.num.toNat : ℤ) : ℚ) by push_cast; ring,
        Int.toNat_of_nonneg hge, hden1 hden]
    have henc : ∀ B, encodeU16 v B = .ok (bytes16 v.num.toNat B) := by
      intro B
      rw [encodeU16, if_pos ⟨hden, hge, hle⟩]
    refine ⟨⟨6, d.addr, 1,
        [bytes16 v.num.toNat (resolveByteOrder (writeReadbackMap bo wo n d) d)], v,
        (match d.deadband, lastSet with
          | some db, some last => if |v - last| < db then "deadband_skip" else "ok"
          | _, _ => "ok")⟩, ?_, ?_, ?_⟩
    · simp only [planWrite, hlk, hro, Bool.false_eq_true, if_false, ite_false,
        hbounded, htype, henc, Except.map]
    · simp [htype, wordsForType]
    · have hread : ∀ B, readU16 (bytes16 v.num.toNat B) 0 B = some v.num.toNat :=
        fun B => readU16_bytes16 _ hu B
      simp [decodePointsFromBlocks, decodePoint, writeReadbackMap, htype,
        wordsForType, findBlock_single, lookupKV, hread, hscale, hoffset, hcast]
  case i16 =>
    rw [htype] at hbounds
    simp only [inBoundsVal] at hbounds
    obtain ⟨hden, hge, hle⟩ := hbounds
    have hu : (v.num % 65536).toNat < 65536 := by omega
    have hti : toInt16 ((v.num % 65536).toNat) = v.num := toInt16_emod v.num hge hle
    have henc : ∀ B, encodeI16 v B = .ok (bytes16 (v.num % 65536).toNat B) := by
      intro B
      rw [encodeI16, if_pos ⟨hden, hge, hle⟩]
    refine ⟨⟨6, d.addr, 1,
        [bytes16 (v.num % 65536).toNat
          (resolveByteOrder (writeReadbackMap bo wo n d) d)], v,
        (match d.deadband, lastSet with
          | some db, some last => if |v - last| < db then "deadband_skip" else "ok"
          | _, _ => "ok")⟩, ?_, ?_, ?_⟩
    · simp only [planWrite, hlk, hro, Bool.false_eq_true, if_false, ite_false,
        hbounded, htype, henc, Except.map]
    · simp [htype, wordsForType]
    · have hread : ∀ B, readU16 (bytes16 ((v.num % 65536).toNat) B) 0 B =
          some ((v.num % 65536).toNat) := fun B => readU16_bytes16 _ hu B
      simp [decodePointsFromBlocks, decodePoint, writeReadbackMap, htype,
        wordsForType, findBlock_single, lookupKV, readI16, hread, hti,
        hscale, hoffset, hden1 hden]
  case u32 =>
    rw [htype] at hbounds
    simp only [inBoundsVal] at hbounds
    obtain ⟨hden, hge, hle⟩ := hbounds
    have hu : v.num.toNat < 4294967296 := by omega
    have hcast : ((v.num.toNat : ℕ) : ℚ) = v := by
      rw [show ((v.num.toNat : ℕ) : ℚ) = ((v.num.toNat : ℤ) : ℚ) by push_cast; ring,
        Int.toNat_of_nonneg hge, hden1 hden]
    have henc : encodeU32 v = .ok v.num.toNat := by
      rw [encodeU32, if_pos ⟨hden, hge, hle⟩]
    refine ⟨⟨16, d.addr, 2,
        splitWords (bytes32 v.num.toNat
          (resolveByteOrder (writeReadbackMap bo wo n d) d))
          (resolveWordOrder (writeReadbackMap bo wo n d) d), v,
        (match d.deadband, lastSet with
          | some db, some last => if |v - last| < db then "deadband_skip" else "ok"
          | _, _ => "ok")⟩, ?_, ?_, ?_⟩
    · simp only [planWrite, hlk, hro, Bool.false_eq_true, if_false, ite_false,
        hbounded, htype, henc, Except.map]
    · simp [htype, wordsForType]
    · have hasm : ∀ (B : ByteOrder) (W : WordOrder),
          assemble32 (slice2 ((splitWords (bytes32 v.num.toNat B) W).flatten) 0)
            (slice2 ((splitWords (bytes32 v.num.toNat B) W).flatten) 2) W =
            bytes32 v.num.toNat B :=
        fun B W => words_join_32 _ (bytes32_length _ _) W
      have hread : ∀ B, readU32FromBytes (bytes32 v.num.toNat B) B =
          some v.num.toNat := fun B => readU32_bytes32 _ hu B
      simp [decodePointsFromBlocks, decodePoint, writeReadbackMap, htype,
        wordsForType, findBlock_single, lookupKV, hasm, hread, hscale, hoffset,
        hcast]
  case i32 =>
    rw [htype] at hbounds
    simp only [inBoundsVal] at hbounds
    obtain ⟨hden, hge, hle⟩ := hbounds
    have hu : (v.num % 4294967296).toNat < 4294967296 := by omega
    have hti : toInt32 ((v.num % 4294967296).toNat) = v.num :=
      toInt32_emod v.num hge hle
    have henc : encodeI32 v = .ok (v.num % 4294967296).toNat := by
      rw [encodeI32, if_pos ⟨hden, hge, hle⟩]
    refine ⟨⟨16, d.addr, 2,
        splitWords (bytes32 ((v.num % 4294967296).toNat)
          (resolveByteOrder (writeReadbackMap bo wo n d) d))
          (resolveWordOrder (writeReadbackMap bo wo n d) d), v,
        (match d.deadband, lastSet with
          | some db, some last => if |v - last| < db then "deadband_skip" else "ok"
          | _, _ => "ok")⟩, ?_, ?_, ?_⟩
    · simp only [planWrite, hlk, hro, Bool.false_eq_true, if_false, ite_false,
        hbounded, htype, henc, Except.map]
    · simp [htype, wordsForType]
    · have hasm : ∀ (B : ByteOrder) (W : WordOrder),
          assemble32
            (slice2 ((splitWords (bytes32 ((v.num % 4294967296).toNat) B) W).flatten) 0)
            (slice2 ((splitWords (bytes32 ((v.num % 4294967296).toNat) B) W).flatten) 2)
            W = bytes32 ((v.num % 4294967296).toNat) B :=
        fun B W => words_join_32 _ (bytes32_length _ _) W
      have hread : ∀ B, readU32FromBytes (bytes32 ((v.num % 4294967296).toNat) B) B =
          some ((v.num % 4294967296).toNat) := fun B => readU32_bytes32 _ hu B
      simp [decodePointsFromBlocks, decodePoint, writeReadbackMap, htype,
        wordsForType, findBlock_single, lookupKV, hasm, hread, hti, hscale,
        hoffset, hden1 hden]
  case float32 =>
    rw [htype] at hbounds
    simp only [inBoundsVal] at hbounds
    obtain ⟨hlt, hdec⟩ := f32_roundtrip_exact v hbounds
    refine ⟨⟨16, d.addr, 2,
        splitWords (bytes32 (f32Bits v)
          (resolveByteOrder (writeReadbackMap bo wo n d) d))
          (resolveWordOrder (writeReadbackMap bo wo n d) d), v,
        (match d.deadband, lastSet with
          | some db, some last => if |v - last| < db then "deadband_skip" else "ok"
          | _, _ => "ok")⟩, ?_, ?_, ?_⟩
    · simp only [planWrite, hlk, hro, Bool.false_eq_true, if_false, ite_false,
        hbounded, htype]
    · simp [htype, wordsForType]
    · have hasm : ∀ (B : ByteOrder) (W : WordOrder),
          assemble32 (slice2 ((splitWords (bytes32 (f32Bits v) B) W).flatten) 0)
            (slice2 ((splitWords (bytes32 (f32Bits v) B) W).flatten) 2) W =
            bytes32 (f32Bits v) B :=
        fun B W => words_join_32 _ (bytes32_length _ _) W
      have hread : ∀ B, readU32FromBytes (bytes32 (f32Bits v) B) B =
          some (f32Bits v) := fun B => readU32_bytes32 _ hlt B
      simp [decodePointsFromBlocks, decodePoint, writeReadbackMap, htype,
        wordsForType, findBlock_single, lookupKV, readF32FromBytes, hasm, hread,
        hdec, hscale, hoffset]

/-- Witness for the amended C4 theorem: a plain u16 point at address
zero round-trips the value 740. -/
theorem C4_write_decode_roundtrip_witness :
    PointDef.ro ⟨0, .u16, none, none, none, none, none, none, false⟩ = false ∧
    inBoundsVal PType.u16 740 ∧
    (∃ plan,
      planWrite (writeReadbackMap .BE .ABCD "p2"
          ⟨0, .u16, none, none, none, none, none, none, false⟩) "p2" 740 true
          none = .ok plan ∧
      plan.fc = (if wordsForType PType.u16 = 1 then 6 else 16) ∧
      decodePointsFromBlocks (writeReadbackMap .BE .ABCD "p2"
          ⟨0, .u16, none, none, none, none, none, none, false⟩)
        [("W", plan.words.flatten)] = [("p2", some (.num 740))]) :=
  ⟨rfl, by constructor <;> norm_num,
    C4_write_decode_roundtrip .BE .ABCD "p2"
      ⟨0, .u16, none, none, none, none, none, none, false⟩ 740 true none rfl rfl
      rfl (by constructor <;> norm_num) trivial⟩

/-- Witness for the amended C5 theorem: at the 60 s default cadence,
60 s ticks never overlap, and a 90 s tick 0 is still running when tick
1 starts. -/
theorem C5_no_overlap_guard_witness :
    (¬ ticksOverlap 60000 (fun _ => 60000)) ∧
    tickRunningAt 60000 (fun _ => 90000) 0 60000 :=
  ⟨(C5_no_overlap_guard 60000 (fun _ => 60000) (by norm_num)).1 (fun _ => by norm_num),
    ((C5_no_overlap_guard 60000 (fun _ => 90000) (by norm_num)).2 0 (by norm_num)
      (by norm_num)).1⟩

end Symon
